import Mathlib

/-!
Verification of the local-database core of a pacman-like package manager:
the descriptor parser (`desc`), the manifest parser (`mtree`) and the lazy,
name-indexed database built on top of them.  Text is modelled as `List Char`;
fallible code returns `Except`; the places where the source program aborts
(`unwrap` on `None`, integer underflow in a slice index, `assert!`) are
modelled as distinguished error variants, marked `panic` in their names.
-/

deriving instance DecidableEq for Except

namespace PacmanRs

/-- Text as a list of characters (Rust `&str`, ASCII in all descriptor data). -/
abbrev Str := List Char

/-- Rust `str::trim` from the left (Unicode whitespace; on the ASCII data of
this repository `Char.isWhitespace` agrees with Rust). -/
def trimLeft (s : Str) : Str := s.dropWhile Char.isWhitespace

/-- Rust `str::trim` from the right. -/
def trimRight (s : Str) : Str := (s.reverse.dropWhile Char.isWhitespace).reverse

/-- Rust `str::trim`. -/
def trim (s : Str) : Str := trimRight (trimLeft s)

/-- Rust `str::split(sep)`: the list of pieces between occurrences of `sep`.
Always returns at least one (possibly empty) piece. -/
def splitChar (sep : Char) : Str → List Str
  | [] => [[]]
  | c :: cs =>
    match splitChar sep cs with
    | [] => [[c]]
    | h :: t => if c = sep then [] :: h :: t else (c :: h) :: t

/-- Substring containment, Rust `str::contains(&str)`. -/
def containsSub (needle hay : Str) : Bool := hay.tails.any (fun t => needle.isPrefixOf t)

/-! Named constants for the label and keyword literals of the source.  Kept
as named definitions so that proof terms stay compact; they unfold to the
literal character lists of the source. -/

def lNAME : Str := "NAME".data

def lVERSION : Str := "VERSION".data

def lBASE : Str := "BASE".data

def lDESC : Str := "DESC".data

def lURL : Str := "URL".data

def lARCH : Str := "ARCH".data

def lBUILDDATE : Str := "BUILDDATE".data

def lINSTALLDATE : Str := "INSTALLDATE".data

def lPACKAGER : Str := "PACKAGER".data

def lSIZE : Str := "SIZE".data

def lREASON : Str := "REASON".data

def lLICENSE : Str := "LICENSE".data

def lVALIDATION : Str := "VALIDATION".data

def lREPLACES : Str := "REPLACES".data

def lDEPENDS : Str := "DEPENDS".data

def lOPTDEPENDS : Str := "OPTDEPENDS".data

def lPROVIDES : Str := "PROVIDES".data

def lGROUPS : Str := "GROUPS".data

def lCONFLICTS : Str := "CONFLICTS".data

def vANY : Str := "any".data

def vX86 : Str := "x86_64".data

def vPGP : Str := "pgp".data

def vNONE : Str := "none".data

def sSENTINEL : Str := "Unknown pacakger".data

def sNONAME : Str := "<name not found>".data

def mSET : Str := "/set".data

def mMTREE : Str := "#mtree".data

def mMODE : Str := "mode".data

def mGID : Str := "gid".data

def mUID : Str := "uid".data

def mSIZE : Str := "size".data

def mTIME : Str := "time".data

def mLINK : Str := "link".data

def mTYPE : Str := "type".data

def vFILE : Str := "file".data

def vDIR : Str := "dir".data

def vLINK : Str := "link".data

def kDOT : Str := ".".data

def wDIGEST : Str := "digest".data

def wMD5 : Str := "md5".data

def wSHA256 : Str := "sha256".data

/-- Numeric value of a list of decimal digits. -/
def decimalValue (s : Str) : Nat := s.foldl (fun n c => 10 * n + (c.toNat - 48)) 0

/-- Rust `FromStr` for unsigned integers with exclusive upper bound `bound`:
an optional leading plus sign, then one or more ASCII digits; a value at or
above `bound` (overflow) is a parse error. -/
def parseUNat (bound : Nat) (s : Str) : Option Nat :=
  let t := match s with
    | '+' :: r => r
    | r => r
  if !t.isEmpty && t.all Char.isDigit then
    let n := decimalValue t
    if n < bound then some n else none
  else none

/-- Rust `str::parse::<u8>()`. -/
def parseU8 (s : Str) : Option Nat := parseUNat (2 ^ 8) s

/-- Rust `str::parse::<u16>()`. -/
def parseU16 (s : Str) : Option Nat := parseUNat (2 ^ 16) s

/-- Rust `str::parse::<u32>()`. -/
def parseU32 (s : Str) : Option Nat := parseUNat (2 ^ 32) s

/-- Rust `str::parse::<u64>()` (also `usize` on a 64-bit target). -/
def parseU64 (s : Str) : Option Nat := parseUNat (2 ^ 64) s

/-- Source expression `second.parse::<f64>()? as u64`: parse a float, then
cast toward zero with saturation (negative values give 0, values at or above
2^64 give 2^64 - 1).  Decimal literals with an optional sign and an optional
fractional part are modelled exactly; exponent notation, `inf`/`nan` and
mantissas beyond f64 precision do not occur in this repository's data and are
not modelled. -/
def parseF64TruncU64 (s : Str) : Option Nat :=
  let p : Bool × Str := match s with
    | '-' :: r => (true, r)
    | '+' :: r => (false, r)
    | r => (false, r)
  match splitChar '.' p.2 with
  | [ip] =>
    if !ip.isEmpty && ip.all Char.isDigit then
      some (if p.1 then 0 else min (decimalValue ip) (2 ^ 64 - 1))
    else none
  | [ip, fp] =>
    if ip.all Char.isDigit && fp.all Char.isDigit && (!ip.isEmpty || !fp.isEmpty) then
      some (if p.1 then 0 else min (decimalValue ip) (2 ^ 64 - 1))
    else none
  | _ => none

/-! ## The email pattern

The source compiles
`^([a-z0-9_+]([a-z0-9_+.]*[a-z0-9_+])?)@([a-z0-9]+([\-\.]{1}[a-z0-9]+)*\.[a-z]{2,6})`
and calls `EMAIL_REGEX.find(x)`.  Because of the `^` anchor the only possible
match starts at the first character of `x`.  The functions below reproduce the
leftmost-first (greedy) semantics of that one pattern. -/

/-- Characters `[a-z0-9]`. -/
def lowerAlnum (c : Char) : Bool := ('a' ≤ c && c ≤ 'z') || c.isDigit

/-- Characters `[a-z]`. -/
def lowerAlpha (c : Char) : Bool := 'a' ≤ c && c ≤ 'z'

/-- Characters `[a-z0-9_+]` (the local part, without the dot). -/
def emailLocalChar (c : Char) : Bool := lowerAlnum c || c = '_' || c = '+'

/-- Characters `[a-z0-9_+.]`. -/
def emailLocalDotChar (c : Char) : Bool := emailLocalChar c || c = '.'

/-- Greedy parse of `([\-\.][a-z0-9]+)*`: the maximal chunk list, each chunk a
separator together with its nonempty alphanumeric run, plus the rest. -/
def emailChunks : Nat → Str → List (Char × Str)
  | 0, _ => []
  | _ + 1, [] => []
  | fuel + 1, c :: cs =>
    if c = '-' || c = '.' then
      let run := cs.takeWhile lowerAlnum
      if run.isEmpty then []
      else (c, run) :: emailChunks fuel (cs.drop run.length)
    else []

/-- Backtracking of the star `([\-\.][a-z0-9]+)*` against the trailing
`\.[a-z]{2,6}`: keeping a chunk inside the star (more iterations, tried first,
as the greedy star prefers) beats using it as the final dot-and-letters; the
last chunk whose separator is a dot and whose run starts with at least two
lowercase letters closes the match. -/
def emailDomainTail : List (Char × Str) → Option Str
  | [] => none
  | (sep, run) :: rest =>
    match emailDomainTail rest with
    | some tail => some (sep :: (run ++ tail))
    | none =>
      if sep = '.' && 2 ≤ (run.takeWhile lowerAlpha).length then
        some ('.' :: ((run.takeWhile lowerAlpha).take 6))
      else none

/-- The domain group `[a-z0-9]+([\-\.][a-z0-9]+)*\.[a-z]{2,6}` matched greedily
at the start of `t`; returns the matched text. -/
def emailDomain (t : Str) : Option Str :=
  let a := t.takeWhile lowerAlnum
  if a.isEmpty then none
  else
    match emailDomainTail (emailChunks t.length (t.drop a.length)) with
    | some tail => some (a ++ tail)
    | none => none

/-- `EMAIL_REGEX.find(x)`: the matched substring, if the anchored pattern
matches at the start of `x`. -/
def emailFind (x : Str) : Option Str :=
  let run := x.takeWhile emailLocalDotChar
  if emailLocalChar (run.headD '.') && emailLocalChar (run.getLastD '.') then
    match x.drop run.length with
    | '@' :: t => (emailDomain t).map (fun d => run ++ '@' :: d)
    | _ => none
  else none

/-! ## Descriptor data model (`desc.rs`) -/

/-- `enum Arch { Any, x86_64 }`. -/
inductive Arch where
  | Any
  | x86_64

deriving DecidableEq

/-- `enum Validation { None, Pgp }`. -/
inductive Validation where
  | None
  | Pgp

deriving DecidableEq

/-- `struct Packager { name, email }`. -/
structure Packager where
  name : Str
  email : Option Str

deriving DecidableEq

/-- `struct OptionalDependency { package, reason }`. -/
structure OptionalDependency where
  package : Str
  reason : Option Str

deriving DecidableEq

/-- `struct PackageDescription` of `desc.rs`. -/
structure PackageDescription where
  name : Str
  version : Str
  pkgbase : Option Str
  description : Option Str
  url : Option Str
  arch : Option Arch
  build_date : Option Nat
  install_date : Option Nat
  packager : Option Packager
  size : Option Nat
  reason : Option Nat
  licences : List Str
  validation : Option Validation
  replaces : List Str
  dependencies : List Str
  optional_dependencies : List OptionalDependency
  provides : List Str
  groups : List Str
  conflicts : List Str

deriving DecidableEq

/-- Errors of `parse_desc`.  The source formats them as strings; each variant
keeps the data interpolated into the corresponding message.  The variant whose
name starts with `panic` stands for an abort of the source program (integer
underflow in the slice `x[..i - 1]` when the first character of the trimmed
PACKAGER value is the less-than sign), not for a returned error. -/
inductive DescError where
  | unexpectedArch (v : Str)
  | unexpectedValidation (v : Str)
  | unknownSection (label : Str) (nameSoFar : Str)
  | missingName
  | missingVersion
  | panicPackagerSlice

deriving DecidableEq

/-- The mutable locals of `parse_desc`, all starting at `None`. -/
structure DescState where
  name : Option Str := none
  version : Option Str := none
  pkgbase : Option Str := none
  description : Option Str := none
  url : Option Str := none
  arch : Option Arch := none
  build_date : Option Nat := none
  install_date : Option Nat := none
  packager : Option Packager := none
  size : Option Nat := none
  reason : Option Nat := none
  licences : Option (List Str) := none
  validation : Option Validation := none
  replaces : Option (List Str) := none
  dependencies : Option (List Str) := none
  optional_dependencies : Option (List OptionalDependency) := none
  provides : Option (List Str) := none
  groups : Option (List Str) := none
  conflicts : Option (List Str) := none

deriving DecidableEq

/-- The all-`None` initial state. -/
def initDescState : DescState := {}

/-- One block of the descriptor text: the label captured by `%(\w+)%` and the
raw value captured by `((?:.+\n)+)` (the value lines with their newlines). -/
abbrev Block := Str × Str

/-- A list field: `trim().split(newline)`, each element trimmed. -/
def listField (v : Str) : List Str := (splitChar '\n' (trim v)).map trim

/-- One OPTDEPENDS value line: `split(colon)`, the first piece is the package,
the second piece, when present, the reason (pieces after a second colon are
dropped, as by the two `it.next()` calls of the source). -/
def optDepOfLine (line : Str) : OptionalDependency :=
  match splitChar ':' line with
  | [] => { package := [], reason := none }
  | p :: rest => { package := trim p, reason := rest.head?.map trim }

/-- The PACKAGER arm with the sentinel already excluded: the display name is
the slice up to one before the first less-than sign (the whole value if there
is none), trimmed; the email is the anchored pattern match on the whole
value. -/
def packagerValue (x : Str) : Packager :=
  { name := trim (x.take (((x.findIdx? (fun c => c = '<')).map (fun i => i - 1)).getD x.length))
    email := emailFind x }

/-- One iteration of the `captures_iter` loop of `parse_desc`: dispatch on the
label and update one field, or fail. -/
def stepDesc (st : DescState) (b : Block) : Except DescError DescState :=
  let l := b.1
  let v := b.2
  if l = lNAME then .ok { st with name := some (trim v) }
  else if l = lVERSION then .ok { st with version := some (trim v) }
  else if l = lBASE then .ok { st with pkgbase := some (trim v) }
  else if l = lDESC then .ok { st with description := some (trim v) }
  else if l = lURL then .ok { st with url := some (trim v) }
  else if l = lARCH then
    if trim v = vANY then .ok { st with arch := some Arch.Any }
    else if trim v = vX86 then .ok { st with arch := some Arch.x86_64 }
    else .error (.unexpectedArch (trim v))
  else if l = lBUILDDATE then .ok { st with build_date := parseU64 (trim v) }
  else if l = lINSTALLDATE then .ok { st with install_date := parseU64 (trim v) }
  else if l = lPACKAGER then
    if trim v = sSENTINEL then .ok { st with packager := none }
    else if (trim v).findIdx? (fun c => c = '<') = some 0 then .error .panicPackagerSlice
    else .ok { st with packager := some (packagerValue (trim v)) }
  else if l = lSIZE then .ok { st with size := parseU64 (trim v) }
  else if l = lREASON then .ok { st with reason := parseU8 (trim v) }
  else if l = lLICENSE then .ok { st with licences := some (listField v) }
  else if l = lVALIDATION then
    if trim v = vPGP then .ok { st with validation := some Validation.Pgp }
    else if trim v = vNONE then .ok { st with validation := some Validation.None }
    else .error (.unexpectedValidation (trim v))
  else if l = lREPLACES then .ok { st with replaces := some (listField v) }
  else if l = lDEPENDS then .ok { st with dependencies := some (listField v) }
  else if l = lOPTDEPENDS then
    .ok { st with optional_dependencies := some ((splitChar '\n' (trim v)).map optDepOfLine) }
  else if l = lPROVIDES then .ok { st with provides := some (listField v) }
  else if l = lGROUPS then .ok { st with groups := some (listField v) }
  else if l = lCONFLICTS then .ok { st with conflicts := some (listField v) }
  else .error (.unknownSection l (st.name.getD sNONAME))

/-- The `captures_iter` loop over all blocks. -/
def goDesc (st : DescState) : List Block → Except DescError DescState
  | [] => .ok st
  | b :: bs =>
    match stepDesc st b with
    | .error e => .error e
    | .ok st' => goDesc st' bs

/-- The final construction of the `PackageDescription`: name and version are
mandatory, unset list fields default to the empty list. -/
def finalizeDesc (st : DescState) : Except DescError PackageDescription :=
  match st.name with
  | none => .error .missingName
  | some n =>
    match st.version with
    | none => .error .missingVersion
    | some ver =>
      .ok { name := n
            version := ver
            pkgbase := st.pkgbase
            description := st.description
            url := st.url
            arch := st.arch
            build_date := st.build_date
            install_date := st.install_date
            packager := st.packager
            size := st.size
            reason := st.reason
            licences := st.licences.getD []
            validation := st.validation
            replaces := st.replaces.getD []
            dependencies := st.dependencies.getD []
            optional_dependencies := st.optional_dependencies.getD []
            provides := st.provides.getD []
            groups := st.groups.getD []
            conflicts := st.conflicts.getD [] }

/-- `parse_desc` on an already-segmented block list. -/
def parseDescBlocks (bs : List Block) : Except DescError PackageDescription :=
  match goDesc initDescState bs with
  | .error e => .error e
  | .ok st => finalizeDesc st

/-! ## The splitting pattern

`SPLITTING_REGEX` is `%(\w+)%\n((?:.+\n)+)` and `parse_desc` iterates its
successive non-overlapping matches (`captures_iter`).  Since a percent sign is
not a word character the greedy `\w+` is exactly the maximal word-character
run, and since `.` does not match a newline the greedy `(?:.+\n)+` is exactly
the maximal run of nonempty newline-terminated lines.  The scanner below
reproduces this: try a match at each position, resume after a match. -/

/-- Word characters of `\w` (on this repository's ASCII labels). -/
def wordChar (c : Char) : Bool := c.isAlphanum || c = '_'

/-- Consume one nonempty newline-terminated line (`.+\n`): the line with its
newline, and the rest. -/
def takeLine : Str → Option (Str × Str)
  | [] => none
  | c :: cs =>
    if c = '\n' then some ([c], cs)
    else (takeLine cs).map (fun p => (c :: p.1, p.2))

/-- Fuelled maximal run of nonempty newline-terminated lines (`(?:.+\n)+`,
greedy): the consumed text and the rest. -/
def takeLinesF : Nat → Str → Str × Str
  | 0, s => ([], s)
  | fuel + 1, s =>
    match s with
    | [] => ([], [])
    | c :: _ =>
      if c = '\n' then ([], s)
      else
        match takeLine s with
        | none => ([], s)
        | some (l, r) =>
          let p := takeLinesF fuel r
          (l ++ p.1, p.2)

/-- Maximal run of nonempty newline-terminated lines. -/
def takeLines (s : Str) : Str × Str := takeLinesF s.length s

/-- Try to match the whole pattern at the start of `s`; on success return the
two captures (label, value) and the text after the match. -/
def matchAt (s : Str) : Option (Block × Str) :=
  match s with
  | '%' :: rest =>
    let lab := rest.takeWhile wordChar
    if lab.isEmpty then none
    else
      match rest.drop lab.length with
      | '%' :: '\n' :: rest2 =>
        let p := takeLines rest2
        if p.1.isEmpty then none else some ((lab, p.1), p.2)
      | _ => none
  | _ => none

/-- Fuelled `captures_iter`: leftmost match, resume after its end. -/
def scanDescF : Nat → Str → List Block
  | 0, _ => []
  | fuel + 1, s =>
    match s with
    | [] => []
    | _ :: cs =>
      match matchAt s with
      | some (b, rest) => b :: scanDescF fuel rest
      | none => scanDescF fuel cs

/-- All captures of `SPLITTING_REGEX` over the descriptor text, in order. -/
def scanDesc (s : Str) : List Block := scanDescF s.length s

/-- `parse_desc` on raw descriptor text. -/
def parseDesc (s : Str) : Except DescError PackageDescription :=
  parseDescBlocks (scanDesc s)

/-! ## Manifest parser (`mtree.rs`) -/

/-- `enum FileType { Directory, File, SymbolicLink, None }`. -/
inductive FileType where
  | Directory
  | File
  | SymbolicLink
  | None

deriving DecidableEq

/-- `struct Hashes { md5, sha256 }`. -/
structure Hashes where
  md5 : Option Str
  sha256 : Option Str

deriving DecidableEq

/-- `struct MTreeEntry` (mode is a u16, gid and uid u32, time u64, filesize
usize in the source; parsing enforces the bounds). -/
structure MTreeEntry where
  filepath : Str
  hashes : Hashes
  mode : Nat
  gid : Nat
  uid : Nat
  time : Nat
  filesize : Nat
  filetype : FileType
  link : Option Str

deriving DecidableEq

/-- Errors of `read_mtree`.  The source formats them as strings; each variant
keeps the interpolated data.  Variants whose names start with `panic` stand
for aborts of the source (`unwrap` on `None`), not for returned errors:
`panicFiletypeNoPath` is `filepath.unwrap()` in the type-arm error path when
no path token preceded, `panicDigestSuffix` is `strip_suffix("digest")
.unwrap()` for a key that contains but does not end in `digest`. -/
inductive MTreeError where
  | modeParse (v : Str)
  | gidParse (v : Str)
  | uidParse (v : Str)
  | sizeParse (v : Str)
  | timeParse (v : Str)
  | unknownFiletype (v : Str) (path : Str)
  | panicFiletypeNoPath (v : Str)
  | unknownHash (v : Str)
  | panicDigestSuffix (key : Str)
  | unknownKey (key : Str) (line : Str)

deriving DecidableEq

/-- The carried-over locals of `read_mtree`, declared outside the line loop
and starting at zero. -/
structure MCarry where
  mode : Nat := 0
  gid : Nat := 0
  uid : Nat := 0
  filesize : Nat := 0

deriving DecidableEq

/-- The per-line locals of `read_mtree`, reset at the top of every line. -/
structure MLine where
  filepath : Option Str := none
  md5 : Option Str := none
  sha256 : Option Str := none
  link : Option Str := none
  time : Nat := 0
  filetype : FileType := FileType.None

deriving DecidableEq

/-- One token (`section`) of a manifest line.  `line` is the whole line, used
only in the unknown-key error message. -/
def stepTok (line : Str) (st : MCarry × MLine) (tok0 : Str) : Except MTreeError (MCarry × MLine) :=
  let c := st.1
  let ml := st.2
  let tok := trim tok0
  if !(tok.contains '=') then
    if mSET.isPrefixOf tok || tok = mMTREE then .ok (c, ml)
    else
      if kDOT.isPrefixOf tok then .ok (c, { ml with filepath := some (tok.drop 1) })
      else .ok (c, { ml with filepath := some tok })
  else
    match splitChar '=' tok with
    | f :: s :: _ =>
      let first := trim f
      let second := trim s
      if first = mMODE then
        match parseU16 second with
        | some n => .ok ({ c with mode := n }, ml)
        | none => .error (.modeParse second)
      else if first = mGID then
        match parseU32 second with
        | some n => .ok ({ c with gid := n }, ml)
        | none => .error (.gidParse second)
      else if first = mUID then
        match parseU32 second with
        | some n => .ok ({ c with uid := n }, ml)
        | none => .error (.uidParse second)
      else if first = mSIZE then
        match parseU64 second with
        | some n => .ok ({ c with filesize := n }, ml)
        | none => .error (.sizeParse second)
      else if first = mTIME then
        match parseF64TruncU64 second with
        | some n => .ok (c, { ml with time := n })
        | none => .error (.timeParse second)
      else if first = mLINK then .ok (c, { ml with link := some second })
      else if first = mTYPE then
        if second = vFILE then .ok (c, { ml with filetype := FileType.File })
        else if second = vDIR then .ok (c, { ml with filetype := FileType.Directory })
        else if second = vLINK then .ok (c, { ml with filetype := FileType.SymbolicLink })
        else
          match ml.filepath with
          | some p => .error (.unknownFiletype second p)
          | none => .error (.panicFiletypeNoPath second)
      else if containsSub wDIGEST first then
        if wDIGEST.isSuffixOf first then
          let x := first.take (first.length - 6)
          if x = wMD5 then .ok (c, { ml with md5 := some second })
          else if x = wSHA256 then .ok (c, { ml with sha256 := some second })
          else .error (.unknownHash second)
        else .error (.panicDigestSuffix first)
      else .error (.unknownKey first line)
    | _ => .ok (c, ml)

/-- The token loop of one line. -/
def goToks (line : Str) (st : MCarry × MLine) : List Str → Except MTreeError (MCarry × MLine)
  | [] => .ok st
  | t :: ts =>
    match stepTok line st t with
    | .error e => .error e
    | .ok st' => goToks line st' ts

/-- One iteration of the line loop: fold the tokens of `line.trim().split( )`
over the fresh per-line state, then emit a record exactly when a path token
was seen.  Returns the new carry and the optional record. -/
def processLine (c : MCarry) (line : Str) : Except MTreeError (MCarry × Option MTreeEntry) :=
  match goToks line (c, {}) (splitChar ' ' (trim line)) with
  | .error e => .error e
  | .ok (c', ml) =>
    match ml.filepath with
    | some fp =>
      .ok (c', some { filepath := fp
                      hashes := { md5 := ml.md5, sha256 := ml.sha256 }
                      mode := c'.mode
                      gid := c'.gid
                      uid := c'.uid
                      time := ml.time
                      filesize := c'.filesize
                      filetype := ml.filetype
                      link := ml.link })
    | none => .ok (c', none)

/-- The line loop of `read_mtree` with its accumulator. -/
def goLines (c : MCarry) (acc : List MTreeEntry) : List Str → Except MTreeError (List MTreeEntry)
  | [] => .ok acc
  | l :: ls =>
    match processLine c l with
    | .error e => .error e
    | .ok (c', some e) => goLines c' (acc ++ [e]) ls
    | .ok (c', none) => goLines c' acc ls

/-- `read_mtree` on the decompressed manifest text. -/
def readMTree (s : Str) : Except MTreeError (List MTreeEntry) :=
  goLines {} [] (splitChar '\n' (trim s))

/-- The key of a `key=value` token, mirroring exactly the tokenization of
`stepTok`; `none` for a path or directive token. -/
def tokKey (tok0 : Str) : Option Str :=
  let tok := trim tok0
  if tok.contains '=' then
    match splitChar '=' tok with
    | f :: _ :: _ => some (trim f)
    | _ => none
  else none

/-- Does a line carry a `key=` token for the given key? -/
def lineHasKey (k : Str) (line : Str) : Bool :=
  (splitChar ' ' (trim line)).any (fun t => tokKey t == some k)

/-! ## Local database (`mod.rs`)

The backing directory is modelled as a list of directory entries in the order
`read_dir` yields them.  The manifest file content stands for the bytes after
gzip decompression, which is external to this repository: `none` means the
file is absent, `some none` an unreadable or corrupt stream, `some (some s)` a
stream decompressing to `s`. -/

/-- One entry of the backing directory. -/
structure FsDir where
  name : Str
  isDir : Bool
  descFile : Option Str
  mtreeFile : Option (Option Str)

deriving DecidableEq

/-- The backing directory in `read_dir` order. -/
abbrev Filesystem := List FsDir

/-- `struct LocalDatabaseEntry { desc, mtree }`. -/
structure LocalDatabaseEntry where
  desc : PackageDescription
  mtree : List MTreeEntry

deriving DecidableEq

/-- Database-level errors.  `io` is a missing or unreadable file, including a
failed decompression; `panicAssertNotDir` stands for the abort of
`assert!(dir.is_dir())`; `notFound` is the could-not-find-package error of
`read_pacakge`. -/
inductive DbError where
  | io
  | descFormat (e : DescError)
  | mtreeFormat (e : MTreeError)
  | notFound
  | panicAssertNotDir

deriving DecidableEq

/-- `LocalDatabaseEntry::new_from_directory`: assert the path is a directory,
read and parse `desc`, then read, decompress and parse `mtree`. -/
def newFromDirectory (d : FsDir) : Except DbError LocalDatabaseEntry :=
  if !d.isDir then .error .panicAssertNotDir
  else
    match d.descFile with
    | none => .error .io
    | some dt =>
      match parseDesc dt with
      | .error e => .error (.descFormat e)
      | .ok desc =>
        match d.mtreeFile with
        | none => .error .io
        | some none => .error .io
        | some (some mt) =>
          match readMTree mt with
          | .error e => .error (.mtreeFormat e)
          | .ok entries => .ok { desc := desc, mtree := entries }

/-- `is_valid_local_entry_dir`: a directory that contains both a `desc` and an
`mtree` file. -/
def isValidLocalEntryDir (d : FsDir) : Bool :=
  d.isDir && d.descFile.isSome && d.mtreeFile.isSome

/-- The cache of the `LocalDatabase` as a name-indexed map (the source uses a
`HashMap<String, LocalDatabaseEntry>`). -/
def DBMap := Str → Option LocalDatabaseEntry

/-- The empty cache. -/
def emptyDB : DBMap := fun _ => none

/-- `HashMap::insert`: later inserts replace earlier values at the same key. -/
def insertDB (k : Str) (v : LocalDatabaseEntry) (m : DBMap) : DBMap :=
  fun x => if x = k then some v else m x

/-- The directory scan of `read_pacakge`: for each entry whose file name
starts with the requested name, parse it (propagating any failure); insert
and return it if its descriptor name equals the requested name exactly,
otherwise keep scanning.  An exhausted scan is the not-found error. -/
def rpLoop (pname : Str) (m : DBMap) : List FsDir → Except DbError LocalDatabaseEntry × DBMap
  | [] => (.error .notFound, m)
  | d :: rest =>
    if pname.isPrefixOf d.name then
      match newFromDirectory d with
      | .error e => (.error e, m)
      | .ok entry =>
        if entry.desc.name = pname then (.ok entry, insertDB pname entry m)
        else rpLoop pname m rest
    else rpLoop pname m rest

/-- `LocalDatabase::read_pacakge`. -/
def readPackage (fs : Filesystem) (m : DBMap) (pname : Str) :
    Except DbError LocalDatabaseEntry × DBMap :=
  rpLoop pname m fs

/-- Result of `LocalDatabase::get`: the returned entry or error, the cache
afterwards, and whether the filesystem was touched. -/
structure GetOut where
  res : Except DbError LocalDatabaseEntry
  db : DBMap
  touchedFs : Bool

/-- `LocalDatabase::get`: a cached entry is returned as is, without touching
the filesystem; otherwise defer to `read_pacakge`. -/
def getOp (fs : Filesystem) (m : DBMap) (pname : Str) : GetOut :=
  match m pname with
  | some entry => { res := .ok entry, db := m, touchedFs := false }
  | none =>
    let p := readPackage fs m pname
    { res := p.1, db := p.2, touchedFs := true }

/-- The pairs fed to `HashMap::extend` by `LocalDatabase::populate`: every
valid directory whose name contains the query and whose entry parses, keyed
by the parsed descriptor name; failing candidates are dropped. -/
def populatePairs (fs : Filesystem) (q : Str) : List (Str × LocalDatabaseEntry) :=
  fs.filterMap (fun d =>
    if isValidLocalEntryDir d && containsSub q d.name then
      match newFromDirectory d with
      | .ok e => some (e.desc.name, e)
      | .error _ => none
    else none)

/-- `LocalDatabase::populate` (`HashMap::extend` is a left fold of inserts). -/
def populate (fs : Filesystem) (m : DBMap) (q : Str) : DBMap :=
  (populatePairs fs q).foldl (fun acc p => insertDB p.1 p.2 acc) m

/-- The database operations of claim C1. -/
inductive DbOp where
  | get (n : Str)
  | readPkg (n : Str)
  | pop (q : Str)

/-- The cache after one operation. -/
def runOp (fs : Filesystem) (m : DBMap) : DbOp → DBMap
  | .get n => (getOp fs m n).db
  | .readPkg n => (readPackage fs m n).2
  | .pop q => populate fs m q

/-- The cache after a sequence of operations. -/
def runOps (fs : Filesystem) (m : DBMap) : List DbOp → DBMap
  | [] => m
  | op :: ops => runOps fs (runOp fs m op) ops

/-! ## Spec-side definitions

The definitions in this section follow the wording of the specification (and,
where the specification is corrected, the amended wording); the theorems
compare them with the embedded program. -/

/-- A descriptor block as the specification describes it: a label and its
value lines. -/
structure SBlock where
  label : Str
  lines : List Str

deriving DecidableEq

/-- The labels `parse_desc` recognizes. -/
def recognizedLabels : List Str :=
  [lNAME, lVERSION, lBASE, lDESC, lURL, lARCH, lBUILDDATE, lINSTALLDATE, lPACKAGER,
   lSIZE, lREASON, lLICENSE, lVALIDATION, lREPLACES, lDEPENDS, lOPTDEPENDS,
   lPROVIDES, lGROUPS, lCONFLICTS]

/-- Amended wording of the PACKAGER rule: the no-packager sentinel yields no
field; otherwise the display name is the value up to one character before the
first less-than sign (the whole value without one), trimmed, and the email is
the anchored pattern match at the start of the value, when there is one. -/
def specPackagerAmended (x : Str) : Option Packager :=
  if x = sSENTINEL then none
  else
    some { name := trim (match x.findIdx? (fun c => c = '<') with
                         | some i => x.take (i - 1)
                         | none => x)
           email := emailFind x }

/-- Coherence of a backing store: any two directory entries that parse
successfully to the same descriptor name parse to equal entries.  This is the
hypothesis under which the cache values are stable (claim C1 amended). -/
def dirsCoherent (fs : Filesystem) : Bool :=
  fs.all (fun d₁ => fs.all (fun d₂ =>
    match newFromDirectory d₁, newFromDirectory d₂ with
    | .ok e₁, .ok e₂ => decide (e₁.desc.name = e₂.desc.name → e₁ = e₂)
    | _, _ => true))

/-- Every directory entry whose name starts with the requested name parses
successfully, to a descriptor name different from the requested one (the
hypothesis of the amended exact-match law, claim C5). -/
def candidatesParseClean (fs : Filesystem) (pname : Str) : Bool :=
  fs.all (fun d =>
    !(pname.isPrefixOf d.name) ||
      match newFromDirectory d with
      | .ok e => decide (e.desc.name ≠ pname)
      | .error _ => false)

/-! ## Concrete fixtures used by the witnesses and counterexamples -/

/-- Descriptor text: name foo, version 1.0-1. -/
def fxDescFoo1 : Str := "%NAME%\nfoo\n\n%VERSION%\n1.0-1\n".data

/-- Descriptor text: name foo, version 2.0-1. -/
def fxDescFoo2 : Str := "%NAME%\nfoo\n\n%VERSION%\n2.0-1\n".data

/-- Descriptor text: name foobar. -/
def fxDescFoobar : Str := "%NAME%\nfoobar\n\n%VERSION%\n1.0-1\n".data

/-- Descriptor text: name linux. -/
def fxDescLinux : Str := "%NAME%\nlinux\n\n%VERSION%\n5.11.6-1\n".data

/-- Descriptor text: name vim. -/
def fxDescVim : Str := "%NAME%\nvim\n\n%VERSION%\n8-1\n".data

/-- A minimal decompressed manifest. -/
def fxMtreeA : Str := "./usr/bin/a type=file".data

/-- Backing directory `foo-1.0-1`, valid. -/
def fxDirFoo1 : FsDir :=
  { name := "foo-1.0-1".data, isDir := true,
    descFile := some fxDescFoo1, mtreeFile := some (some fxMtreeA) }

/-- Backing directory `foo-2.0-1`, valid, same descriptor name as
`fxDirFoo1` but a different version. -/
def fxDirFoo2 : FsDir :=
  { name := "foo-2.0-1".data, isDir := true,
    descFile := some fxDescFoo2, mtreeFile := some (some fxMtreeA) }

/-- Backing directory `foobar-1.0-1`, valid, descriptor name foobar. -/
def fxDirFoobar : FsDir :=
  { name := "foobar-1.0-1".data, isDir := true,
    descFile := some fxDescFoobar, mtreeFile := some (some fxMtreeA) }

/-- Backing directory `foobar-1.0-1` without an `mtree` file. -/
def fxDirFoobarNoMtree : FsDir :=
  { name := "foobar-1.0-1".data, isDir := true,
    descFile := some fxDescFoobar, mtreeFile := none }

/-- Backing directory `linux-5.11.6-1`, valid. -/
def fxDirLinux : FsDir :=
  { name := "linux-5.11.6-1".data, isDir := true,
    descFile := some fxDescLinux, mtreeFile := some (some fxMtreeA) }

/-- Backing directory `vim-8-1`, valid. -/
def fxDirVim : FsDir :=
  { name := "vim-8-1".data, isDir := true,
    descFile := some fxDescVim, mtreeFile := some (some fxMtreeA) }

/-- The two manifest lines of the carry-over law. -/
def fxMtreeC3 : Str :=
  "./usr/bin/foo mode=755 uid=0 gid=0 time=123.0 size=10 type=file\n./usr/bin/bar time=124.0".data

/-- Blocks of a descriptor whose PACKAGER value starts with a less-than
sign. -/
def fxBlocksLtPackager : List SBlock :=
  [{ label := "NAME".data, lines := ["foo".data] },
   { label := "VERSION".data, lines := ["1".data] },
   { label := "PACKAGER".data, lines := ["<x".data] }]

/-- Descriptor text whose PACKAGER value is a name directly followed by a
bracketed email. -/
def fxDescC4 : Str := "%NAME%\nfoo\n\n%VERSION%\n1\n\n%PACKAGER%\nJohn<j@ab.cd>\n".data

/-- The four numeric descriptor labels with the documented leniency. -/
def numericLabels : List Str := [lBUILDDATE, lINSTALLDATE, lSIZE, lREASON]

/-- The integer parser a numeric label uses (REASON is a u8, the rest u64). -/
def numParseFor (L : Str) : Str → Option Nat :=
  if L = lREASON then parseU8 else parseU64

/-- The parser-state field a numeric label assigns. -/
def stateNumField (L : Str) (st : DescState) : Option Nat :=
  if L = lBUILDDATE then st.build_date
  else if L = lINSTALLDATE then st.install_date
  else if L = lSIZE then st.size
  else st.reason

/-- The record field a numeric label fills. -/
def descNumField (L : Str) (r : PackageDescription) : Option Nat :=
  if L = lBUILDDATE then r.build_date
  else if L = lINSTALLDATE then r.install_date
  else if L = lSIZE then r.size
  else r.reason

/-! ## A classified view of the manifest token loop

`classifyTok` computes which arm of `stepTok` a token takes and with which
payload, and `applyTok` applies that arm to the state; `stepTok_eq` proves
the decomposition equal to `stepTok`.  All further reasoning is on the small
`TokCase` analysis. -/

/-- The possible effects of one manifest token. -/
inductive TokCase where
  | skip
  | path (p : Str)
  | mode (n : Nat)
  | gid (n : Nat)
  | uid (n : Nat)
  | size (n : Nat)
  | time (n : Nat)
  | link (v : Str)
  | ftype (t : FileType)
  | ftypeBad (v : Str)
  | md5 (v : Str)
  | sha256 (v : Str)
  | err (e : MTreeError)

deriving DecidableEq

/-- Which arm of `stepTok` a token takes (state-free). -/
def classifyTok (line : Str) (tok0 : Str) : TokCase :=
  let tok := trim tok0
  if !(tok.contains '=') then
    if mSET.isPrefixOf tok || tok = mMTREE then .skip
    else
      if kDOT.isPrefixOf tok then .path (tok.drop 1)
      else .path tok
  else
    match splitChar '=' tok with
    | f :: s :: _ =>
      let first := trim f
      let second := trim s
      if first = mMODE then
        match parseU16 second with
        | some n => .mode n
        | none => .err (.modeParse second)
      else if first = mGID then
        match parseU32 second with
        | some n => .gid n
        | none => .err (.gidParse second)
      else if first = mUID then
        match parseU32 second with
        | some n => .uid n
        | none => .err (.uidParse second)
      else if first = mSIZE then
        match parseU64 second with
        | some n => .size n
        | none => .err (.sizeParse second)
      else if first = mTIME then
        match parseF64TruncU64 second with
        | some n => .time n
        | none => .err (.timeParse second)
      else if first = mLINK then .link second
      else if first = mTYPE then
        if second = vFILE then .ftype FileType.File
        else if second = vDIR then .ftype FileType.Directory
        else if second = vLINK then .ftype FileType.SymbolicLink
        else .ftypeBad second
      else if containsSub wDIGEST first then
        if wDIGEST.isSuffixOf first then
          let x := first.take (first.length - 6)
          if x = wMD5 then .md5 second
          else if x = wSHA256 then .sha256 second
          else .err (.unknownHash second)
        else .err (.panicDigestSuffix first)
      else .err (.unknownKey first line)
    | _ => .skip

/-- Apply one classified token effect to the state. -/
def applyTok (st : MCarry × MLine) : TokCase → Except MTreeError (MCarry × MLine)
  | .skip => .ok st
  | .path p => .ok (st.1, { st.2 with filepath := some p })
  | .mode n => .ok ({ st.1 with mode := n }, st.2)
  | .gid n => .ok ({ st.1 with gid := n }, st.2)
  | .uid n => .ok ({ st.1 with uid := n }, st.2)
  | .size n => .ok ({ st.1 with filesize := n }, st.2)
  | .time n => .ok (st.1, { st.2 with time := n })
  | .link v => .ok (st.1, { st.2 with link := some v })
  | .ftype t => .ok (st.1, { st.2 with filetype := t })
  | .ftypeBad v =>
    match st.2.filepath with
    | some p => .error (.unknownFiletype v p)
    | none => .error (.panicFiletypeNoPath v)
  | .md5 v => .ok (st.1, { st.2 with md5 := some v })
  | .sha256 v => .ok (st.1, { st.2 with sha256 := some v })
  | .err e => .error e

/-- Is the effect setting the mode? -/
def TokCase.isMode : TokCase → Bool
  | .mode _ => true
  | _ => false

/-- Is the effect setting the gid? -/
def TokCase.isGid : TokCase → Bool
  | .gid _ => true
  | _ => false

/-- Is the effect setting the uid? -/
def TokCase.isUid : TokCase → Bool
  | .uid _ => true
  | _ => false

/-- Is the effect setting the size? -/
def TokCase.isSize : TokCase → Bool
  | .size _ => true
  | _ => false

/-- Is the effect setting the timestamp? -/
def TokCase.isTime : TokCase → Bool
  | .time _ => true
  | _ => false

/-- Is the effect setting the file type? -/
def TokCase.isFtype : TokCase → Bool
  | .ftype _ => true
  | _ => false

/-- The tokens of a manifest line, as the line loop produces them. -/
def lineToks (line : Str) : List Str := splitChar ' ' (trim line)

/-- Does the line supply its own mode (a `mode=` token with a parsing
value)? -/
def lineSetsMode (line : Str) : Bool := (lineToks line).any (fun t => (classifyTok line t).isMode)

/-- Does the line supply its own gid? -/
def lineSetsGid (line : Str) : Bool := (lineToks line).any (fun t => (classifyTok line t).isGid)

/-- Does the line supply its own uid? -/
def lineSetsUid (line : Str) : Bool := (lineToks line).any (fun t => (classifyTok line t).isUid)

/-- Does the line supply its own size? -/
def lineSetsSize (line : Str) : Bool := (lineToks line).any (fun t => (classifyTok line t).isSize)

/-- Does the line supply a timestamp? -/
def lineSetsTime (line : Str) : Bool := (lineToks line).any (fun t => (classifyTok line t).isTime)

/-- Does the line supply a file type? -/
def lineSetsFtype (line : Str) : Bool := (lineToks line).any (fun t => (classifyTok line t).isFtype)

/-- Outcomes of the token loop on two different carries: same error, or both
succeed with the same per-line state. -/
def sameLineOutcome : Except MTreeError (MCarry × MLine) → Except MTreeError (MCarry × MLine) → Prop
  | .error e₁, .error e₂ => e₁ = e₂
  | .ok (_, m₁), .ok (_, m₂) => m₁ = m₂
  | _, _ => False

/-- Outcomes of one line on two different carries: same error, or records
agreeing on presence and on every per-line field (path, hashes, timestamp,
file type, symlink target). -/
def lineResetAgrees : Except MTreeError (MCarry × Option MTreeEntry) →
    Except MTreeError (MCarry × Option MTreeEntry) → Prop
  | .error e₁, .error e₂ => e₁ = e₂
  | .ok (_, ent₁), .ok (_, ent₂) =>
    ent₁.isSome = ent₂.isSome ∧
      ∀ e₁ e₂, ent₁ = some e₁ → ent₂ = some e₂ →
        e₁.filepath = e₂.filepath ∧ e₁.hashes = e₂.hashes ∧ e₁.time = e₂.time ∧
          e₁.filetype = e₂.filetype ∧ e₁.link = e₂.link
  | _, _ => False

/-- Proof-side variant of the line loop that also returns the final carry. -/
def goLinesSt (c : MCarry) (acc : List MTreeEntry) :
    List Str → Except MTreeError (MCarry × List MTreeEntry)
  | [] => .ok (c, acc)
  | l :: ls =>
    match processLine c l with
    | .error e => .error e
    | .ok (c', some e) => goLinesSt c' (acc ++ [e]) ls
    | .ok (c', none) => goLinesSt c' acc ls

/-- No line of the list supplies mode, gid, uid or size. -/
def linesKeyFree (ls : List Str) : Prop :=
  ∀ l ∈ ls, lineSetsMode l = false ∧ lineSetsGid l = false ∧
    lineSetsUid l = false ∧ lineSetsSize l = false

instance (ls : List Str) : Decidable (linesKeyFree ls) := by
  unfold linesKeyFree; infer_instance

/-! ## A classified view of the descriptor block loop

As for the manifest tokens: `classifyDesc` computes which arm of `stepDesc` a
block takes together with its payload, `applyDesc` applies the arm, and
`stepDesc_eq` proves the decomposition equal to `stepDesc`. -/

/-- The possible effects of one descriptor block. -/
inductive DescCase where
  | setName (v : Str)
  | setVersion (v : Str)
  | setBase (v : Str)
  | setDescr (v : Str)
  | setUrl (v : Str)
  | setArch (a : Arch)
  | archErr (v : Str)
  | setBuild (o : Option Nat)
  | setInstall (o : Option Nat)
  | setPackager (o : Option Packager)
  | packagerPanic
  | setSize (o : Option Nat)
  | setReason (o : Option Nat)
  | setLicences (ls : List Str)
  | setValidation (vl : Validation)
  | validationErr (v : Str)
  | setReplaces (ls : List Str)
  | setDepends (ls : List Str)
  | setOptDepends (os : List OptionalDependency)
  | setProvides (ls : List Str)
  | setGroups (ls : List Str)
  | setConflicts (ls : List Str)
  | unknown (l : Str)

deriving DecidableEq

/-- Which arm of `stepDesc` a block takes (state-free). -/
def classifyDesc (b : Block) : DescCase :=
  let l := b.1
  let v := b.2
  if l = lNAME then .setName (trim v)
  else if l = lVERSION then .setVersion (trim v)
  else if l = lBASE then .setBase (trim v)
  else if l = lDESC then .setDescr (trim v)
  else if l = lURL then .setUrl (trim v)
  else if l = lARCH then
    if trim v = vANY then .setArch Arch.Any
    else if trim v = vX86 then .setArch Arch.x86_64
    else .archErr (trim v)
  else if l = lBUILDDATE then .setBuild (parseU64 (trim v))
  else if l = lINSTALLDATE then .setInstall (parseU64 (trim v))
  else if l = lPACKAGER then
    if trim v = sSENTINEL then .setPackager none
    else if (trim v).findIdx? (fun c => c = '<') = some 0 then .packagerPanic
    else .setPackager (some (packagerValue (trim v)))
  else if l = lSIZE then .setSize (parseU64 (trim v))
  else if l = lREASON then .setReason (parseU8 (trim v))
  else if l = lLICENSE then .setLicences (listField v)
  else if l = lVALIDATION then
    if trim v = vPGP then .setValidation Validation.Pgp
    else if trim v = vNONE then .setValidation Validation.None
    else .validationErr (trim v)
  else if l = lREPLACES then .setReplaces (listField v)
  else if l = lDEPENDS then .setDepends (listField v)
  else if l = lOPTDEPENDS then .setOptDepends ((splitChar '\n' (trim v)).map optDepOfLine)
  else if l = lPROVIDES then .setProvides (listField v)
  else if l = lGROUPS then .setGroups (listField v)
  else if l = lCONFLICTS then .setConflicts (listField v)
  else .unknown l

/-- Apply one classified block effect to the parser state. -/
def applyDesc (st : DescState) : DescCase → Except DescError DescState
  | .setName v => .ok { st with name := some v }
  | .setVersion v => .ok { st with version := some v }
  | .setBase v => .ok { st with pkgbase := some v }
  | .setDescr v => .ok { st with description := some v }
  | .setUrl v => .ok { st with url := some v }
  | .setArch a => .ok { st with arch := some a }
  | .archErr v => .error (.unexpectedArch v)
  | .setBuild o => .ok { st with build_date := o }
  | .setInstall o => .ok { st with install_date := o }
  | .setPackager o => .ok { st with packager := o }
  | .packagerPanic => .error .panicPackagerSlice
  | .setSize o => .ok { st with size := o }
  | .setReason o => .ok { st with reason := o }
  | .setLicences ls => .ok { st with licences := some ls }
  | .setValidation vl => .ok { st with validation := some vl }
  | .validationErr v => .error (.unexpectedValidation v)
  | .setReplaces ls => .ok { st with replaces := some ls }
  | .setDepends ls => .ok { st with dependencies := some ls }
  | .setOptDepends os => .ok { st with optional_dependencies := some os }
  | .setProvides ls => .ok { st with provides := some ls }
  | .setGroups ls => .ok { st with groups := some ls }
  | .setConflicts ls => .ok { st with conflicts := some ls }
  | .unknown l => .error (.unknownSection l (st.name.getD sNONAME))

/-! ## Label bookkeeping for the descriptor loop -/

/-- The label that produces a given classified descriptor case. -/
def DescCase.labelOf : DescCase → Str
  | .setName _ => lNAME
  | .setVersion _ => lVERSION
  | .setBase _ => lBASE
  | .setDescr _ => lDESC
  | .setUrl _ => lURL
  | .setArch _ => lARCH
  | .archErr _ => lARCH
  | .setBuild _ => lBUILDDATE
  | .setInstall _ => lINSTALLDATE
  | .setPackager _ => lPACKAGER
  | .packagerPanic => lPACKAGER
  | .setSize _ => lSIZE
  | .setReason _ => lREASON
  | .setLicences _ => lLICENSE
  | .setValidation _ => lVALIDATION
  | .validationErr _ => lVALIDATION
  | .setReplaces _ => lREPLACES
  | .setDepends _ => lDEPENDS
  | .setOptDepends _ => lOPTDEPENDS
  | .setProvides _ => lPROVIDES
  | .setGroups _ => lGROUPS
  | .setConflicts _ => lCONFLICTS
  | .unknown l => l

/-- Assignment to the parser-state field of a numeric label. -/
def stSetNum (L : Str) (o : Option Nat) (st : DescState) : DescState :=
  if L = lBUILDDATE then { st with build_date := o }
  else if L = lINSTALLDATE then { st with install_date := o }
  else if L = lSIZE then { st with size := o }
  else { st with reason := o }

/-- Clearing the record field of a numeric label. -/
def descSetNumNone (L : Str) (r : PackageDescription) : PackageDescription :=
  if L = lBUILDDATE then { r with build_date := none }
  else if L = lINSTALLDATE then { r with install_date := none }
  else if L = lSIZE then { r with size := none }
  else { r with reason := none }

/-- Value blocks used by the leniency and unknown-label witnesses. -/
def fxBlkName : Block := (lNAME, "demo\n".data)

/-- A VERSION block with value 1. -/
def fxBlkVersion : Block := (lVERSION, "1\n".data)

/-- A SIZE block whose value is not a number. -/
def fxBlkSizeBad : Block := (lSIZE, "zz\n".data)

/-- A label the parser does not recognize. -/
def fxLabColour : Str := "COLOUR".data

/-- An arbitrary one-line value. -/
def fxValX : Str := "x\n".data

/-- The name the fxBlkName block parses to. -/
def fxNameDemo : Str := "demo".data

/-! ## The PACKAGER rule (claim C4) -/

/-- Is the outcome a success? -/
def isOkE {e a : Type} (x : Except e a) : Bool :=
  match x with
  | .ok _ => true
  | .error _ => false

/-- Fuelled relaxation of the anchored email pattern: the anchored match is
tried at every successive start position, leftmost first.  This realizes the
claim wording, which asks for the first match anywhere in the value. -/
def emailSearchF : Nat → Str → Option Str
  | 0, _ => none
  | fuel + 1, s =>
    match emailFind s with
    | some m => some m
    | none =>
      match s with
      | [] => none
      | _ :: cs => emailSearchF fuel cs

/-- First match of the email pattern anywhere in the text. -/
def emailFindFirst (x : Str) : Option Str := emailSearchF (x.length + 1) x

/-- Claim wording of the PACKAGER rule: the sentinel yields no field;
otherwise the display name is the substring before the first less-than sign
(the whole value without one), trimmed, and the email is the first match of
the pattern anywhere in the value. -/
def specPackagerClaimed (x : Str) : Option Packager :=
  if x = sSENTINEL then none
  else
    some { name := trim (match x.findIdx? (fun c => c = '<') with
                         | some i => x.take i
                         | none => x)
           email := emailFindFirst x }

/-- The PACKAGER value of the C4 counterexample. -/
def fxPackagerJohn : Str := "John<j@ab.cd>".data

/-- The name the source slices out of it. -/
def fxNameJoh : Str := "Joh".data

/-- The name the claim predicts. -/
def fxNameJohn : Str := "John".data

/-- The email the claim predicts. -/
def fxEmailJ : Str := "j@ab.cd".data

/-- A harmless PACKAGER value used by the C4 witness. -/
def fxPackVal : Str := " Jane <j@kw.de> \n".data

/-- Name foo, the C5 lookup argument. -/
def fxNameFoo : Str := "foo".data

/-- Name linux. -/
def fxNameLinux : Str := "linux".data

/-- Name vim. -/
def fxNameVim : Str := "vim".data

/-- Query li. -/
def fxQueryLi : Str := "li".data

/-- A valid directory whose desc file does not parse. -/
def fxDirBadDesc : FsDir :=
  { name := "broken-1-1".data, isDir := true,
    descFile := some "junk".data, mtreeFile := some (some fxMtreeA) }

/-- One directory of the backing store yields this entry under this name. -/
def entryFromFs (fs : Filesystem) (k : Str) (e : LocalDatabaseEntry) : Prop :=
  ∃ d ∈ fs, newFromDirectory d = .ok e ∧ e.desc.name = k

/-- Every cached entry comes from the backing store under its own name. -/
def dbReflectsFs (fs : Filesystem) (m : DBMap) : Prop :=
  ∀ k e, m k = some e → entryFromFs fs k e

/-- Which directories the population with query q inserts under name k. -/
def dirYields (q k : Str) (d : FsDir) : Bool :=
  isValidLocalEntryDir d && containsSub q d.name &&
    (match newFromDirectory d with
     | .ok e => decide (e.desc.name = k)
     | .error _ => false)

/-- An all-fields-empty record, the fallback of the fixture entry. -/
def fxEmptyDesc : PackageDescription :=
  { name := [], version := [], pkgbase := none, description := none, url := none,
    arch := none, build_date := none, install_date := none, packager := none,
    size := none, reason := none, licences := [], validation := none, replaces := [],
    dependencies := [], optional_dependencies := [], provides := [], groups := [],
    conflicts := [] }

/-- The fallback entry. -/
def fxEmptyEntry : LocalDatabaseEntry := { desc := fxEmptyDesc, mtree := [] }

/-- The entry the linux fixture directory parses to. -/
def fxLinuxEntry : LocalDatabaseEntry :=
  match newFromDirectory fxDirLinux with
  | .ok e => e
  | .error _ => fxEmptyEntry

theorem stepTok_eq (line : Str) (c : MCarry) (ml : MLine) (tok0 : Str) :
    stepTok line (c, ml) tok0 = applyTok (c, ml) (classifyTok line tok0) := by
  simp only [stepTok, classifyTok]
  by_cases hA : (!List.contains (trim tok0) '=') = true
  · simp only [if_pos hA]
    by_cases hB : (mSET.isPrefixOf (trim tok0) || decide (trim tok0 = mMTREE)) = true
    · simp only [if_pos hB]; rfl
    · simp only [if_neg hB]
      by_cases hC : (kDOT.isPrefixOf (trim tok0)) = true
      · simp only [if_pos hC]; rfl
      · simp only [if_neg hC]; rfl
  · simp only [if_neg hA]
    rcases hsp : splitChar '=' (trim tok0) with _ | ⟨f, _ | ⟨sv, rest⟩⟩
    · rfl
    · rfl
    · by_cases h1 : trim f = mMODE
      · simp only [if_pos h1]
        rcases hp : parseU16 (trim sv) with _ | n <;> rfl
      · simp only [if_neg h1]
        by_cases h2 : trim f = mGID
        · simp only [if_pos h2]
          rcases hp : parseU32 (trim sv) with _ | n <;> rfl
        · simp only [if_neg h2]
          by_cases h3 : trim f = mUID
          · simp only [if_pos h3]
            rcases hp : parseU32 (trim sv) with _ | n <;> rfl
          · simp only [if_neg h3]
            by_cases h4 : trim f = mSIZE
            · simp only [if_pos h4]
              rcases hp : parseU64 (trim sv) with _ | n <;> rfl
            · simp only [if_neg h4]
              by_cases h5 : trim f = mTIME
              · simp only [if_pos h5]
                rcases hp : parseF64TruncU64 (trim sv) with _ | n <;> rfl
              · simp only [if_neg h5]
                by_cases h6 : trim f = mLINK
                · simp only [if_pos h6]; rfl
                · simp only [if_neg h6]
                  by_cases h7 : trim f = mTYPE
                  · simp only [if_pos h7]
                    by_cases hf1 : trim sv = vFILE
                    · simp only [if_pos hf1]; rfl
                    · simp only [if_neg hf1]
                      by_cases hf2 : trim sv = vDIR
                      · simp only [if_pos hf2]; rfl
                      · simp only [if_neg hf2]
                        by_cases hf3 : trim sv = vLINK
                        · simp only [if_pos hf3]; rfl
                        · simp only [if_neg hf3]; rfl
                  · simp only [if_neg h7]
                    by_cases h8 : (containsSub wDIGEST (trim f)) = true
                    · simp only [if_pos h8]
                      by_cases h9 : (wDIGEST.isSuffixOf (trim f)) = true
                      · simp only [if_pos h9]
                        by_cases h10 : (trim f).take ((trim f).length - 6) = wMD5
                        · simp only [if_pos h10]; rfl
                        · simp only [if_neg h10]
                          by_cases h11 : (trim f).take ((trim f).length - 6) = wSHA256
                          · simp only [if_pos h11]; rfl
                          · simp only [if_neg h11]; rfl
                      · simp only [if_neg h9]; rfl
                    · simp only [if_neg h8]; rfl

theorem goToks_ml_congr (line : Str) (toks : List Str) :
    ∀ (c₁ c₂ : MCarry) (ml : MLine),
      sameLineOutcome (goToks line (c₁, ml) toks) (goToks line (c₂, ml) toks) := by
  induction toks with
  | nil => intro c₁ c₂ ml; simp [goToks, sameLineOutcome]
  | cons t ts ih =>
    intro c₁ c₂ ml
    simp only [goToks, stepTok_eq]
    cases hc : classifyTok line t <;> simp only [applyTok] <;> try exact ih _ _ _
    · -- ftypeBad: both sides take the same error
      cases ml.filepath <;> simp [sameLineOutcome]
    · simp [sameLineOutcome]

theorem goToks_preserve (line : Str) (toks : List Str) :
    ∀ (c : MCarry) (ml : MLine) (c' : MCarry) (ml' : MLine),
      goToks line (c, ml) toks = .ok (c', ml') →
      ((∀ t ∈ toks, (classifyTok line t).isMode = false) → c'.mode = c.mode) ∧
      ((∀ t ∈ toks, (classifyTok line t).isGid = false) → c'.gid = c.gid) ∧
      ((∀ t ∈ toks, (classifyTok line t).isUid = false) → c'.uid = c.uid) ∧
      ((∀ t ∈ toks, (classifyTok line t).isSize = false) → c'.filesize = c.filesize) ∧
      ((∀ t ∈ toks, (classifyTok line t).isTime = false) → ml'.time = ml.time) ∧
      ((∀ t ∈ toks, (classifyTok line t).isFtype = false) → ml'.filetype = ml.filetype) := by
  induction toks with
  | nil =>
    intro c ml c' ml' h
    simp only [goToks] at h
    injection h with h'
    injection h' with h1 h2
    subst h1; subst h2
    exact ⟨fun _ => rfl, fun _ => rfl, fun _ => rfl, fun _ => rfl, fun _ => rfl, fun _ => rfl⟩
  | cons t ts ih =>
    intro c ml c' ml' h
    simp only [goToks, stepTok_eq] at h
    cases hc : classifyTok line t <;> rw [hc] at h <;> simp only [applyTok] at h
    case ftypeBad v =>
      cases hml : ml.filepath <;> rw [hml] at h <;> exact Except.noConfusion h
    case err e => exact Except.noConfusion h
    all_goals
      obtain ⟨p1, p2, p3, p4, p5, p6⟩ := ih _ _ _ _ h
      refine ⟨?_, ?_, ?_, ?_, ?_, ?_⟩ <;> intro hall <;>
        first
        | exact p1 (fun x hx => hall x (List.mem_cons_of_mem _ hx))
        | exact p2 (fun x hx => hall x (List.mem_cons_of_mem _ hx))
        | exact p3 (fun x hx => hall x (List.mem_cons_of_mem _ hx))
        | exact p4 (fun x hx => hall x (List.mem_cons_of_mem _ hx))
        | exact p5 (fun x hx => hall x (List.mem_cons_of_mem _ hx))
        | exact p6 (fun x hx => hall x (List.mem_cons_of_mem _ hx))
        | (exfalso
           have hh := hall t (List.mem_cons_self t ts)
           rw [hc] at hh
           simp [TokCase.isMode, TokCase.isGid, TokCase.isUid, TokCase.isSize,
                 TokCase.isTime, TokCase.isFtype] at hh)

theorem processLine_inv {c : MCarry} {line : Str} {c' : MCarry} {ent : Option MTreeEntry}
    (h : processLine c line = .ok (c', ent)) :
    (lineSetsMode line = false → c'.mode = c.mode) ∧
    (lineSetsGid line = false → c'.gid = c.gid) ∧
    (lineSetsUid line = false → c'.uid = c.uid) ∧
    (lineSetsSize line = false → c'.filesize = c.filesize) ∧
    (∀ e, ent = some e →
      e.mode = c'.mode ∧ e.gid = c'.gid ∧ e.uid = c'.uid ∧ e.filesize = c'.filesize ∧
      (lineSetsTime line = false → e.time = 0) ∧
      (lineSetsFtype line = false → e.filetype = FileType.None)) := by
  unfold processLine at h
  cases hg : goToks line (c, {}) (splitChar ' ' (trim line)) with
  | error e => rw [hg] at h; exact Except.noConfusion h
  | ok p =>
    obtain ⟨c₀, ml⟩ := p
    rw [hg] at h
    dsimp only at h
    obtain ⟨q1, q2, q3, q4, q5, q6⟩ := goToks_preserve line _ c {} c₀ ml hg
    have hany : ∀ (f : TokCase → Bool),
        ((lineToks line).any (fun t => f (classifyTok line t)) = false) →
        ∀ t ∈ splitChar ' ' (trim line), f (classifyTok line t) = false := by
      intro f hf t ht
      have := List.any_eq_false.mp hf t ht
      simpa using this
    cases hf : ml.filepath with
    | none =>
      rw [hf] at h
      simp only [Except.ok.injEq, Prod.mk.injEq] at h
      obtain ⟨h1, h2⟩ := h
      subst h1; subst h2
      refine ⟨fun hm => q1 (hany _ hm), fun hm => q2 (hany _ hm),
              fun hm => q3 (hany _ hm), fun hm => q4 (hany _ hm), ?_⟩
      intro e he; exact Option.noConfusion he
    | some fp =>
      rw [hf] at h
      simp only [Except.ok.injEq, Prod.mk.injEq] at h
      obtain ⟨h1, h2⟩ := h
      subst h1
      refine ⟨fun hm => q1 (hany _ hm), fun hm => q2 (hany _ hm),
              fun hm => q3 (hany _ hm), fun hm => q4 (hany _ hm), ?_⟩
      intro e he
      rw [← h2] at he
      injection he with he'
      subst he'
      refine ⟨rfl, rfl, rfl, rfl, fun hm => ?_, fun hm => ?_⟩
      · exact q5 (hany _ hm)
      · exact q6 (hany _ hm)

theorem processLine_reset (line : Str) (c₁ c₂ : MCarry) :
    lineResetAgrees (processLine c₁ line) (processLine c₂ line) := by
  unfold processLine
  have hcong := goToks_ml_congr line (splitChar ' ' (trim line)) c₁ c₂ {}
  cases h₁ : goToks line (c₁, {}) (splitChar ' ' (trim line)) with
  | error e₁ =>
    cases h₂ : goToks line (c₂, {}) (splitChar ' ' (trim line)) with
    | error e₂ =>
      rw [h₁, h₂] at hcong
      simp only [sameLineOutcome] at hcong
      subst hcong
      simp [lineResetAgrees]
    | ok p =>
      rw [h₁, h₂] at hcong
      obtain ⟨c', ml⟩ := p
      simp [sameLineOutcome] at hcong
  | ok p =>
    obtain ⟨c₁', ml₁⟩ := p
    cases h₂ : goToks line (c₂, {}) (splitChar ' ' (trim line)) with
    | error e₂ =>
      rw [h₁, h₂] at hcong
      simp [sameLineOutcome] at hcong
    | ok q =>
      obtain ⟨c₂', ml₂⟩ := q
      rw [h₁, h₂] at hcong
      simp only [sameLineOutcome] at hcong
      subst hcong
      cases hf : ml₁.filepath with
      | none => simp [hf, lineResetAgrees]
      | some fp =>
        simp only [hf, lineResetAgrees, Option.isSome_some, true_and]
        intro e₁ e₂ he₁ he₂
        injection he₁ with he₁'
        injection he₂ with he₂'
        subst he₁'; subst he₂'
        exact ⟨rfl, rfl, rfl, rfl, rfl⟩

theorem goLines_eq_st (ls : List Str) : ∀ c acc,
    goLines c acc ls = (goLinesSt c acc ls).map (fun p => p.2) := by
  induction ls with
  | nil => intro c acc; rfl
  | cons l ls ih =>
    intro c acc
    simp only [goLines, goLinesSt]
    cases processLine c l with
    | error e => rfl
    | ok p =>
      obtain ⟨c', ent⟩ := p
      cases ent with
      | none => exact ih _ _
      | some e => exact ih _ _

theorem goLinesSt_append (pre rest : List Str) : ∀ c acc,
    goLinesSt c acc (pre ++ rest) =
      match goLinesSt c acc pre with
      | .error e => .error e
      | .ok p => goLinesSt p.1 p.2 rest := by
  induction pre with
  | nil => intro c acc; rfl
  | cons l ls ih =>
    intro c acc
    simp only [List.cons_append, goLinesSt]
    cases processLine c l with
    | error e => rfl
    | ok p =>
      obtain ⟨c', ent⟩ := p
      cases ent with
      | none => exact ih _ _
      | some e => exact ih _ _

theorem goLinesSt_defaults (ls : List Str) : ∀ c acc c' es,
    goLinesSt c acc ls = .ok (c', es) → linesKeyFree ls →
    c.mode = 0 → c.gid = 0 → c.uid = 0 → c.filesize = 0 →
    (∀ e ∈ acc, e.mode = 0 ∧ e.gid = 0 ∧ e.uid = 0 ∧ e.filesize = 0) →
    ∀ e ∈ es, e.mode = 0 ∧ e.gid = 0 ∧ e.uid = 0 ∧ e.filesize = 0 := by
  induction ls with
  | nil =>
    intro c acc c' es h _ _ _ _ _ hacc
    simp only [goLinesSt, Except.ok.injEq, Prod.mk.injEq] at h
    obtain ⟨_, h2⟩ := h
    subst h2
    exact hacc
  | cons l ls ih =>
    intro c acc c' es h hfree hm hg hu hs hacc
    simp only [goLinesSt] at h
    cases hp : processLine c l with
    | error e => rw [hp] at h; exact Except.noConfusion h
    | ok p =>
      obtain ⟨c₁, ent⟩ := p
      rw [hp] at h
      obtain ⟨r1, r2, r3, r4, r5⟩ := processLine_inv hp
      obtain ⟨k1, k2, k3, k4⟩ := hfree l (List.mem_cons_self l ls)
      have hc₁m : c₁.mode = 0 := by rw [r1 k1, hm]
      have hc₁g : c₁.gid = 0 := by rw [r2 k2, hg]
      have hc₁u : c₁.uid = 0 := by rw [r3 k3, hu]
      have hc₁s : c₁.filesize = 0 := by rw [r4 k4, hs]
      have hfree' : linesKeyFree ls := fun x hx => hfree x (List.mem_cons_of_mem _ hx)
      cases ent with
      | none => exact ih _ _ _ _ h hfree' hc₁m hc₁g hc₁u hc₁s hacc
      | some e₀ =>
        refine ih _ _ _ _ h hfree' hc₁m hc₁g hc₁u hc₁s ?_
        intro e he
        rcases List.mem_append.mp he with he | he
        · exact hacc e he
        · obtain ⟨f1, f2, f3, f4, _, _⟩ := r5 e₀ rfl
          have : e = e₀ := by simpa using he
          subst this
          exact ⟨f1.trans hc₁m, f2.trans hc₁g, f3.trans hc₁u, f4.trans hc₁s⟩

theorem goLinesSt_acc_prefix (ls : List Str) : ∀ c acc c' es,
    goLinesSt c acc ls = .ok (c', es) → List.IsPrefix acc es := by
  induction ls with
  | nil =>
    intro c acc c' es h
    simp only [goLinesSt, Except.ok.injEq, Prod.mk.injEq] at h
    exact h.2 ▸ List.prefix_rfl
  | cons l ls ih =>
    intro c acc c' es h
    simp only [goLinesSt] at h
    cases hp : processLine c l with
    | error e => rw [hp] at h; exact Except.noConfusion h
    | ok p =>
      obtain ⟨c₁, ent⟩ := p
      rw [hp] at h
      cases ent with
      | none => exact ih _ _ _ _ h
      | some e₀ =>
        have := ih _ _ _ _ h
        exact List.IsPrefix.trans (List.prefix_append acc [e₀]) this

theorem stepDesc_eq (st : DescState) (l v : Str) :
    stepDesc st (l, v) = applyDesc st (classifyDesc (l, v)) := by
  simp only [stepDesc, classifyDesc]
  by_cases h1 : l = lNAME
  · simp only [if_pos h1]; rfl
  · simp only [if_neg h1]
    by_cases h2 : l = lVERSION
    · simp only [if_pos h2]; rfl
    · simp only [if_neg h2]
      by_cases h3 : l = lBASE
      · simp only [if_pos h3]; rfl
      · simp only [if_neg h3]
        by_cases h4 : l = lDESC
        · simp only [if_pos h4]; rfl
        · simp only [if_neg h4]
          by_cases h5 : l = lURL
          · simp only [if_pos h5]; rfl
          · simp only [if_neg h5]
            by_cases h6 : l = lARCH
            · simp only [if_pos h6]
              by_cases g1 : trim v = vANY
              · simp only [if_pos g1]; rfl
              · simp only [if_neg g1]
                by_cases g2 : trim v = vX86
                · simp only [if_pos g2]; rfl
                · simp only [if_neg g2]; rfl
            · simp only [if_neg h6]
              by_cases h7 : l = lBUILDDATE
              · simp only [if_pos h7]; rfl
              · simp only [if_neg h7]
                by_cases h8 : l = lINSTALLDATE
                · simp only [if_pos h8]; rfl
                · simp only [if_neg h8]
                  by_cases h9 : l = lPACKAGER
                  · simp only [if_pos h9]
                    by_cases g1 : trim v = sSENTINEL
                    · simp only [if_pos g1]; rfl
                    · simp only [if_neg g1]
                      by_cases g2 : (trim v).findIdx? (fun c => c = '<') = some 0
                      · simp only [if_pos g2]; rfl
                      · simp only [if_neg g2]; rfl
                  · simp only [if_neg h9]
                    by_cases h10 : l = lSIZE
                    · simp only [if_pos h10]; rfl
                    · simp only [if_neg h10]
                      by_cases h11 : l = lREASON
                      · simp only [if_pos h11]; rfl
                      · simp only [if_neg h11]
                        by_cases h12 : l = lLICENSE
                        · simp only [if_pos h12]; rfl
                        · simp only [if_neg h12]
                          by_cases h13 : l = lVALIDATION
                          · simp only [if_pos h13]
                            by_cases g1 : trim v = vPGP
                            · simp only [if_pos g1]; rfl
                            · simp only [if_neg g1]
                              by_cases g2 : trim v = vNONE
                              · simp only [if_pos g2]; rfl
                              · simp only [if_neg g2]; rfl
                          · simp only [if_neg h13]
                            by_cases h14 : l = lREPLACES
                            · simp only [if_pos h14]; rfl
                            · simp only [if_neg h14]
                              by_cases h15 : l = lDEPENDS
                              · simp only [if_pos h15]; rfl
                              · simp only [if_neg h15]
                                by_cases h16 : l = lOPTDEPENDS
                                · simp only [if_pos h16]; rfl
                                · simp only [if_neg h16]
                                  by_cases h17 : l = lPROVIDES
                                  · simp only [if_pos h17]; rfl
                                  · simp only [if_neg h17]
                                    by_cases h18 : l = lGROUPS
                                    · simp only [if_pos h18]; rfl
                                    · simp only [if_neg h18]
                                      by_cases h19 : l = lCONFLICTS
                                      · simp only [if_pos h19]; rfl
                                      · simp only [if_neg h19]; rfl

/-! ## Lemmas about trimming and splitting -/

theorem dropWhile_idem (p : Char → Bool) (l : Str) :
    (l.dropWhile p).dropWhile p = l.dropWhile p := by
  induction l with
  | nil => rfl
  | cons c t ih =>
    by_cases h : p c = true
    · simp [List.dropWhile_cons, h, ih]
    · simp [List.dropWhile_cons, h]

theorem dropWhile_append_all {p : Char → Bool} {a : Str} (ha : a.all p = true) (b : Str) :
    (a ++ b).dropWhile p = b.dropWhile p := by
  induction a with
  | nil => rfl
  | cons d a ih =>
    simp only [List.all_cons, Bool.and_eq_true] at ha
    simp [List.dropWhile_cons, ha.1, ih ha.2]

theorem dropWhile_append_any {p : Char → Bool} {a : Str}
    (ha : a.any (fun x => !p x) = true) (b : Str) :
    (a ++ b).dropWhile p = a.dropWhile p ++ b := by
  induction a with
  | nil => simp at ha
  | cons d a ih =>
    by_cases h : p d = true
    · simp only [List.any_cons, h, Bool.not_true, Bool.false_or] at ha
      simp [List.dropWhile_cons, h, ih ha]
    · simp [List.dropWhile_cons, h]

theorem trimRight_idem (x : Str) : trimRight (trimRight x) = trimRight x := by
  unfold trimRight
  rw [List.reverse_reverse, dropWhile_idem]

theorem trimLeft_idem (x : Str) : trimLeft (trimLeft x) = trimLeft x := by
  unfold trimLeft
  exact dropWhile_idem _ _

/-- The cons recursion of `trimRight`. -/
theorem trimRight_cons (c : Char) (t : Str) :
    trimRight (c :: t) =
      (if trimRight t = [] then (if c.isWhitespace then [] else [c]) else c :: trimRight t) := by
  unfold trimRight
  have hrev : (c :: t).reverse = t.reverse ++ [c] := by simp
  rw [hrev]
  by_cases h : t.reverse.dropWhile Char.isWhitespace = []
  · have hall : t.reverse.all Char.isWhitespace = true := by
      rw [List.all_eq_true]
      intro x hx
      exact List.dropWhile_eq_nil_iff.mp h x hx
    rw [dropWhile_append_all hall]
    have ht : ([] : Str).reverse = [] := rfl
    rw [if_pos (by rw [h]; rfl)]
    by_cases hc : c.isWhitespace = true
    · simp [List.dropWhile_cons, hc]
    · simp only [Bool.not_eq_true] at hc
      simp [List.dropWhile_cons, hc]
  · have hany : t.reverse.any (fun x => !Char.isWhitespace x) = true := by
      rcases List.exists_cons_of_ne_nil h with ⟨d, r, hdr⟩
      have hd : d ∈ t.reverse.dropWhile Char.isWhitespace := by rw [hdr]; exact List.mem_cons_self d r
      have hdm : d ∈ t.reverse := (List.dropWhile_sublist _).mem hd
      have hdp : Char.isWhitespace d = false := by
        have := List.head?_dropWhile_not Char.isWhitespace t.reverse
        rw [hdr] at this
        simpa using this
      rw [List.any_eq_true]
      exact ⟨d, hdm, by rw [hdp]; rfl⟩
    rw [dropWhile_append_any hany]
    rw [if_neg (by intro hx; exact h (by simpa using congrArg List.reverse hx))]
    simp

/-- Trimming from the left and from the right commute. -/
theorem trimLeft_trimRight (x : Str) : trimLeft (trimRight x) = trimRight (trimLeft x) := by
  induction x with
  | nil => rfl
  | cons c t ih =>
    rw [trimRight_cons]
    by_cases h : trimRight t = []
    · rw [if_pos h]
      by_cases hc : c.isWhitespace = true
      · have h1 : trimLeft (c :: t) = trimLeft t := by simp [trimLeft, List.dropWhile_cons, hc]
        rw [if_pos hc, h1, ← ih, h]
      · simp only [Bool.not_eq_true] at hc
        rw [if_neg (by rw [hc]; exact Bool.false_ne_true)]
        have h1 : trimLeft (c :: t) = c :: t := by simp [trimLeft, List.dropWhile_cons, hc]
        have h2 : trimLeft [c] = [c] := by simp [trimLeft, List.dropWhile_cons, hc]
        rw [h2, h1, trimRight_cons, h]
        simp [hc]
    · rw [if_neg h]
      by_cases hc : c.isWhitespace = true
      · have h1 : trimLeft (c :: t) = trimLeft t := by simp [trimLeft, List.dropWhile_cons, hc]
        have h2 : trimLeft (c :: trimRight t) = trimLeft (trimRight t) := by
          simp [trimLeft, List.dropWhile_cons, hc]
        rw [h1, h2, ih]
      · simp only [Bool.not_eq_true] at hc
        have h1 : trimLeft (c :: t) = c :: t := by simp [trimLeft, List.dropWhile_cons, hc]
        have h2 : trimLeft (c :: trimRight t) = c :: trimRight t := by
          simp [trimLeft, List.dropWhile_cons, hc]
        rw [h1, h2, trimRight_cons, if_neg h]

theorem trim_trimLeft (x : Str) : trim (trimLeft x) = trim x := by
  unfold trim
  rw [trimLeft_idem]

theorem trim_trimRight (x : Str) : trim (trimRight x) = trim x := by
  unfold trim
  rw [trimLeft_trimRight, trimRight_idem]

theorem trim_idem (x : Str) : trim (trim x) = trim x := by
  show trim (trimRight (trimLeft x)) = trim x
  rw [trim_trimRight, trim_trimLeft]

/-- The trimmed text is a sublist of the original. -/
theorem trim_sublist (x : Str) : (trim x).Sublist x := by
  have h1 : (trimLeft x).Sublist x := List.dropWhile_sublist _
  have h2 : (trimRight (trimLeft x)).Sublist (trimLeft x) := by
    unfold trimRight
    have := List.dropWhile_sublist (l := (trimLeft x).reverse) Char.isWhitespace
    have h3 := List.reverse_sublist.mpr this
    rwa [List.reverse_reverse] at h3
  exact h2.trans h1

theorem trim_eq_of_trims : (∀ x : Str, trim (trimRight x) = trim x) ∧
    (∀ x : Str, trim (trimLeft x) = trim x) := ⟨trim_trimRight, trim_trimLeft⟩

/-- C3: parsing the two manifest lines `./usr/bin/foo mode=755 uid=0 gid=0
time=123.0 size=10 type=file` and `./usr/bin/bar time=124.0` yields exactly
two records, the second inheriting mode 755, gid 0, uid 0 and size 10 while
its path is `/usr/bin/bar`, its time 124 and its file type unset; in general
mode, gid, uid and size persist from the previous resolved carry unless the
line supplies its own (and each emitted record carries the resolved values),
while path, hashes, file type, symlink target and timestamp never depend on
the carry. -/
theorem C3_mtree_carry_over :
    readMTree fxMtreeC3 =
        .ok [{ filepath := "/usr/bin/foo".data, hashes := { md5 := none, sha256 := none },
               mode := 755, gid := 0, uid := 0, time := 123, filesize := 10,
               filetype := FileType.File, link := none },
             { filepath := "/usr/bin/bar".data, hashes := { md5 := none, sha256 := none },
               mode := 755, gid := 0, uid := 0, time := 124, filesize := 10,
               filetype := FileType.None, link := none }] ∧
    (∀ (c : MCarry) (line : Str) (c' : MCarry) (ent : Option MTreeEntry),
      processLine c line = .ok (c', ent) →
      (lineSetsMode line = false → c'.mode = c.mode) ∧
      (lineSetsGid line = false → c'.gid = c.gid) ∧
      (lineSetsUid line = false → c'.uid = c.uid) ∧
      (lineSetsSize line = false → c'.filesize = c.filesize) ∧
      (∀ e, ent = some e →
        e.mode = c'.mode ∧ e.gid = c'.gid ∧ e.uid = c'.uid ∧ e.filesize = c'.filesize)) ∧
    (∀ (line : Str) (c₁ c₂ : MCarry),
      lineResetAgrees (processLine c₁ line) (processLine c₂ line)) := by
  refine ⟨by decide, ?_, processLine_reset⟩
  intro c line c' ent h
  obtain ⟨p1, p2, p3, p4, p5⟩ := processLine_inv h
  exact ⟨p1, p2, p3, p4, fun e he => ⟨(p5 e he).1, (p5 e he).2.1, (p5 e he).2.2.1,
    (p5 e he).2.2.2.1⟩⟩

/-- Witness for C3: a line with only a path and a timestamp keeps the carry
⟨7, 8, 9, 10⟩ unchanged and stamps it into its record. -/
theorem C3_mtree_carry_over_witness :
    processLine ⟨7, 8, 9, 10⟩ "./x time=5.0".data =
        .ok (⟨7, 8, 9, 10⟩,
             some { filepath := "/x".data, hashes := { md5 := none, sha256 := none },
                    mode := 7, gid := 8, uid := 9, time := 5, filesize := 10,
                    filetype := FileType.None, link := none }) ∧
    (⟨7, 8, 9, 10⟩ : MCarry).mode = 7 ∧
    lineResetAgrees (processLine ⟨1, 2, 3, 4⟩ "./x time=5.0".data)
      (processLine ⟨5, 6, 7, 8⟩ "./x time=5.0".data) := by
  refine ⟨by decide, ?_, C3_mtree_carry_over.2.2 _ _ _⟩
  have h := (C3_mtree_carry_over.2.1 ⟨7, 8, 9, 10⟩ ("./x time=5.0".data) ⟨7, 8, 9, 10⟩
    (some { filepath := "/x".data, hashes := { md5 := none, sha256 := none },
            mode := 7, gid := 8, uid := 9, time := 5, filesize := 10,
            filetype := FileType.None, link := none }) (by decide)).1 (by decide)
  exact h.trans rfl

/-- C9 counterexample: on the line `type=bogus ./usr/bin/foo` the `type=` key
precedes the path token; the source does not fail with an error naming the
offending line, it aborts (`filepath.unwrap()` on `None`), modelled by the
distinguished panic outcome. -/
theorem C9_filetype_enum_cex :
    readMTree "type=bogus ./usr/bin/foo".data =
        .error (.panicFiletypeNoPath "bogus".data) ∧
    MTreeError.panicFiletypeNoPath "bogus".data ≠
      MTreeError.unknownFiletype "bogus".data "type=bogus ./usr/bin/foo".data := by
  exact ⟨by decide, by decide⟩

/-- C9 (amended): `type=file`, `type=dir` and `type=link` map to the File,
Directory and SymbolicLink tags; any other `type=` value makes parsing fail
with an error naming the offending value and the path token already seen on
that line — and when no path token has been seen yet, the source aborts
instead of returning an error. -/
theorem C9_filetype_enum :
    (∀ (line : Str) (c : MCarry) (ml : MLine),
      stepTok line (c, ml) "type=file".data = .ok (c, { ml with filetype := FileType.File })) ∧
    (∀ (line : Str) (c : MCarry) (ml : MLine),
      stepTok line (c, ml) "type=dir".data = .ok (c, { ml with filetype := FileType.Directory })) ∧
    (∀ (line : Str) (c : MCarry) (ml : MLine),
      stepTok line (c, ml) "type=link".data =
        .ok (c, { ml with filetype := FileType.SymbolicLink })) ∧
    (∀ (line : Str) (c : MCarry) (ml : MLine) (tok v : Str) (p : Str),
      classifyTok line tok = .ftypeBad v → ml.filepath = some p →
      stepTok line (c, ml) tok = .error (.unknownFiletype v p)) ∧
    (∀ (line : Str) (c : MCarry) (ml : MLine) (tok v : Str),
      classifyTok line tok = .ftypeBad v → ml.filepath = none →
      stepTok line (c, ml) tok = .error (.panicFiletypeNoPath v)) ∧
    readMTree "./usr/bin/foo type=bogus".data =
      .error (.unknownFiletype "bogus".data "/usr/bin/foo".data) := by
  refine ⟨?_, ?_, ?_, ?_, ?_, by decide⟩
  · intro line c ml; exact stepTok_eq line c ml _
  · intro line c ml; exact stepTok_eq line c ml _
  · intro line c ml; exact stepTok_eq line c ml _
  · intro line c ml tok v p hc hp
    rw [stepTok_eq, hc]
    simp [applyTok, hp]
  · intro line c ml tok v hc hp
    rw [stepTok_eq, hc]
    simp [applyTok, hp]

/-- Witness for C9: a concrete bad `type=` token after a seen path produces
the error carrying the value and the path. -/
theorem C9_filetype_enum_witness :
    classifyTok "./x type=bogus".data "type=bogus".data = .ftypeBad "bogus".data ∧
    stepTok "./x type=bogus".data
        (⟨0, 0, 0, 0⟩, { filepath := some "/x".data }) "type=bogus".data =
      .error (.unknownFiletype "bogus".data "/x".data) :=
  ⟨by decide,
   C9_filetype_enum.2.2.2.1 "./x type=bogus".data ⟨0, 0, 0, 0⟩
     { filepath := some "/x".data } "type=bogus".data "bogus".data "/x".data
     (by decide) rfl⟩

/-- C10: the carried-over defaults start at zero — every record produced by a
prefix of lines supplying no mode, gid, uid or size key has all four fields
zero; a line without a time key yields timestamp 0 and a line without a type
key yields the unset file type, neither being an error. -/
theorem C10_mtree_defaults :
    (∀ (s : Str) (pre rest : List Str) (es : List MTreeEntry),
      splitChar '\n' (trim s) = pre ++ rest → readMTree s = .ok es → linesKeyFree pre →
      ∃ c₁ es₁, goLinesSt ⟨0, 0, 0, 0⟩ [] pre = .ok (c₁, es₁) ∧
        (∀ e ∈ es₁, e.mode = 0 ∧ e.gid = 0 ∧ e.uid = 0 ∧ e.filesize = 0) ∧
        List.IsPrefix es₁ es) ∧
    (∀ (c : MCarry) (line : Str) (c' : MCarry) (e : MTreeEntry),
      processLine c line = .ok (c', some e) →
      (lineSetsTime line = false → e.time = 0) ∧
      (lineSetsFtype line = false → e.filetype = FileType.None)) ∧
    readMTree "./a\n./b".data =
      .ok [{ filepath := "/a".data, hashes := { md5 := none, sha256 := none },
             mode := 0, gid := 0, uid := 0, time := 0, filesize := 0,
             filetype := FileType.None, link := none },
           { filepath := "/b".data, hashes := { md5 := none, sha256 := none },
             mode := 0, gid := 0, uid := 0, time := 0, filesize := 0,
             filetype := FileType.None, link := none }] := by
  refine ⟨?_, ?_, by decide⟩
  · intro s pre rest es hsplit hok hfree
    have hrm : goLines ⟨0, 0, 0, 0⟩ [] (pre ++ rest) = .ok es := by
      have : readMTree s = goLines ⟨0, 0, 0, 0⟩ [] (splitChar '\n' (trim s)) := rfl
      rw [this, hsplit] at hok
      exact hok
    rw [goLines_eq_st] at hrm
    cases hst : goLinesSt ⟨0, 0, 0, 0⟩ [] (pre ++ rest) with
    | error e => rw [hst] at hrm; exact Except.noConfusion hrm
    | ok p =>
      obtain ⟨cf, esf⟩ := p
      rw [hst] at hrm
      injection hrm with hrm'
      have hesf : esf = es := hrm'
      rw [goLinesSt_append] at hst
      cases hpre : goLinesSt ⟨0, 0, 0, 0⟩ [] pre with
      | error e => rw [hpre] at hst; exact Except.noConfusion hst
      | ok q =>
        obtain ⟨c₁, es₁⟩ := q
        rw [hpre] at hst
        refine ⟨c₁, es₁, rfl, ?_, ?_⟩
        · exact goLinesSt_defaults pre _ _ _ _ hpre hfree rfl rfl rfl rfl
            (by intro e he; exact absurd he (List.not_mem_nil e))
        · have := goLinesSt_acc_prefix rest c₁ es₁ cf esf hst
          rw [hesf] at this
          exact this
  · intro c line c' e h
    obtain ⟨_, _, _, _, p5⟩ := processLine_inv h
    obtain ⟨_, _, _, _, t5, t6⟩ := p5 e rfl
    exact ⟨t5, t6⟩

/-- Witness for C10: a concrete two-line manifest with no keys at all parses
to two all-zero records with unset file type. -/
theorem C10_mtree_defaults_witness :
    splitChar '\n' (trim "./a\n./b".data) = ["./a".data, "./b".data] ++ [] ∧
    linesKeyFree ["./a".data, "./b".data] ∧
    (∃ c₁ es₁, goLinesSt ⟨0, 0, 0, 0⟩ [] ["./a".data, "./b".data] = .ok (c₁, es₁) ∧
      (∀ e ∈ es₁, e.mode = 0 ∧ e.gid = 0 ∧ e.uid = 0 ∧ e.filesize = 0) ∧
      List.IsPrefix es₁
        [{ filepath := "/a".data, hashes := { md5 := none, sha256 := none },
           mode := 0, gid := 0, uid := 0, time := 0, filesize := 0,
           filetype := FileType.None, link := none },
         { filepath := "/b".data, hashes := { md5 := none, sha256 := none },
           mode := 0, gid := 0, uid := 0, time := 0, filesize := 0,
           filetype := FileType.None, link := none }]) := by
  refine ⟨by decide, by decide, ?_⟩
  exact C10_mtree_defaults.1 "./a\n./b".data ["./a".data, "./b".data] [] _ (by decide)
    (by decide) (by decide)

theorem classify_labelOf (l v : Str) : (classifyDesc (l, v)).labelOf = l := by
  simp only [classifyDesc]
  by_cases h1 : l = lNAME
  · simp only [if_pos h1]; exact h1.symm
  · simp only [if_neg h1]
    by_cases h2 : l = lVERSION
    · simp only [if_pos h2]; exact h2.symm
    · simp only [if_neg h2]
      by_cases h3 : l = lBASE
      · simp only [if_pos h3]; exact h3.symm
      · simp only [if_neg h3]
        by_cases h4 : l = lDESC
        · simp only [if_pos h4]; exact h4.symm
        · simp only [if_neg h4]
          by_cases h5 : l = lURL
          · simp only [if_pos h5]; exact h5.symm
          · simp only [if_neg h5]
            by_cases h6 : l = lARCH
            · simp only [if_pos h6]
              by_cases g1 : trim v = vANY
              · simp only [if_pos g1]; exact h6.symm
              · simp only [if_neg g1]
                by_cases g2 : trim v = vX86
                · simp only [if_pos g2]; exact h6.symm
                · simp only [if_neg g2]; exact h6.symm
            · simp only [if_neg h6]
              by_cases h7 : l = lBUILDDATE
              · simp only [if_pos h7]; exact h7.symm
              · simp only [if_neg h7]
                by_cases h8 : l = lINSTALLDATE
                · simp only [if_pos h8]; exact h8.symm
                · simp only [if_neg h8]
                  by_cases h9 : l = lPACKAGER
                  · simp only [if_pos h9]
                    by_cases g1 : trim v = sSENTINEL
                    · simp only [if_pos g1]; exact h9.symm
                    · simp only [if_neg g1]
                      by_cases g2 : (trim v).findIdx? (fun c => c = '<') = some 0
                      · simp only [if_pos g2]; exact h9.symm
                      · simp only [if_neg g2]; exact h9.symm
                  · simp only [if_neg h9]
                    by_cases h10 : l = lSIZE
                    · simp only [if_pos h10]; exact h10.symm
                    · simp only [if_neg h10]
                      by_cases h11 : l = lREASON
                      · simp only [if_pos h11]; exact h11.symm
                      · simp only [if_neg h11]
                        by_cases h12 : l = lLICENSE
                        · simp only [if_pos h12]; exact h12.symm
                        · simp only [if_neg h12]
                          by_cases h13 : l = lVALIDATION
                          · simp only [if_pos h13]
                            by_cases g1 : trim v = vPGP
                            · simp only [if_pos g1]; exact h13.symm
                            · simp only [if_neg g1]
                              by_cases g2 : trim v = vNONE
                              · simp only [if_pos g2]; exact h13.symm
                              · simp only [if_neg g2]; exact h13.symm
                          · simp only [if_neg h13]
                            by_cases h14 : l = lREPLACES
                            · simp only [if_pos h14]; exact h14.symm
                            · simp only [if_neg h14]
                              by_cases h15 : l = lDEPENDS
                              · simp only [if_pos h15]; exact h15.symm
                              · simp only [if_neg h15]
                                by_cases h16 : l = lOPTDEPENDS
                                · simp only [if_pos h16]; exact h16.symm
                                · simp only [if_neg h16]
                                  by_cases h17 : l = lPROVIDES
                                  · simp only [if_pos h17]; exact h17.symm
                                  · simp only [if_neg h17]
                                    by_cases h18 : l = lGROUPS
                                    · simp only [if_pos h18]; exact h18.symm
                                    · simp only [if_neg h18]
                                      by_cases h19 : l = lCONFLICTS
                                      · simp only [if_pos h19]; exact h19.symm
                                      · simp only [if_neg h19]
                                        rfl

theorem goDesc_append (bs₁ bs₂ : List Block) : ∀ st,
    goDesc st (bs₁ ++ bs₂) = match goDesc st bs₁ with
      | .error e => .error e
      | .ok st1 => goDesc st1 bs₂ := by
  induction bs₁ with
  | nil => intro st; rfl
  | cons b bs ih =>
    intro st
    show goDesc st (b :: (bs ++ bs₂)) = _
    simp only [goDesc]
    cases stepDesc st b with
    | error e => rfl
    | ok st1 => exact ih st1

theorem numParse_stepDesc (L : Str) (hL : L ∈ numericLabels) (st : DescState) (v : Str) :
    stepDesc st (L, v) = .ok (stSetNum L (numParseFor L (trim v)) st) := by
  simp only [numericLabels, List.mem_cons, List.not_mem_nil, or_false] at hL
  rcases hL with h | h | h | h <;> subst h <;> rfl

theorem applyDesc_build_frame (st : DescState) (C : DescCase) (hC : C.labelOf ≠ lBUILDDATE) :
    applyDesc (stSetNum lBUILDDATE none st) C
      = (applyDesc st C).map (stSetNum lBUILDDATE none) := by
  cases C <;> first | exact absurd rfl hC | rfl

theorem applyDesc_install_frame (st : DescState) (C : DescCase) (hC : C.labelOf ≠ lINSTALLDATE) :
    applyDesc (stSetNum lINSTALLDATE none st) C
      = (applyDesc st C).map (stSetNum lINSTALLDATE none) := by
  cases C <;> first | exact absurd rfl hC | rfl

theorem applyDesc_size_frame (st : DescState) (C : DescCase) (hC : C.labelOf ≠ lSIZE) :
    applyDesc (stSetNum lSIZE none st) C
      = (applyDesc st C).map (stSetNum lSIZE none) := by
  cases C <;> first | exact absurd rfl hC | rfl

theorem applyDesc_reason_frame (st : DescState) (C : DescCase) (hC : C.labelOf ≠ lREASON) :
    applyDesc (stSetNum lREASON none st) C
      = (applyDesc st C).map (stSetNum lREASON none) := by
  cases C <;> first | exact absurd rfl hC | rfl

theorem applyDesc_num_frame (L : Str) (hL : L ∈ numericLabels) (st : DescState)
    (C : DescCase) (hC : C.labelOf ≠ L) :
    applyDesc (stSetNum L none st) C = (applyDesc st C).map (stSetNum L none) := by
  simp only [numericLabels, List.mem_cons, List.not_mem_nil, or_false] at hL
  rcases hL with h | h | h | h <;> subst h
  · exact applyDesc_build_frame st C hC
  · exact applyDesc_install_frame st C hC
  · exact applyDesc_size_frame st C hC
  · exact applyDesc_reason_frame st C hC

theorem goDesc_num_frame (L : Str) (hL : L ∈ numericLabels) :
    ∀ (bs : List Block), (∀ b ∈ bs, b.1 ≠ L) → ∀ st,
      goDesc (stSetNum L none st) bs = (goDesc st bs).map (stSetNum L none) := by
  intro bs
  induction bs with
  | nil => intro _ st; rfl
  | cons b bs ih =>
    intro hbs st
    obtain ⟨l, v⟩ := b
    simp only [goDesc]
    rw [stepDesc_eq, stepDesc_eq]
    have hlab : (classifyDesc (l, v)).labelOf ≠ L := by
      rw [classify_labelOf]
      exact hbs (l, v) (List.mem_cons_self _ _)
    rw [applyDesc_num_frame L hL st _ hlab]
    cases hA : applyDesc st (classifyDesc (l, v)) with
    | error e => rfl
    | ok st1 => exact ih (fun b hb => hbs b (List.mem_cons_of_mem _ hb)) st1

theorem finalize_num_frame (L : Str) (hL : L ∈ numericLabels) (st : DescState) :
    finalizeDesc (stSetNum L none st) = (finalizeDesc st).map (descSetNumNone L) := by
  simp only [numericLabels, List.mem_cons, List.not_mem_nil, or_false] at hL
  obtain ⟨sn, sv, f1, f2, f3, f4, f5, f6, f7, f8, f9, f10, f11, f12, f13, f14, f15, f16, f17⟩ := st
  rcases hL with h | h | h | h <;> subst h <;>
    rcases sn with _ | n <;> rcases sv with _ | ver <;> rfl

/-- C7: a BUILDDATE, INSTALLDATE, SIZE or REASON block whose value does not
parse as the corresponding unsigned integer does not make parsing fail: the
outcome is exactly the outcome without that block with the corresponding
field cleared, so the field is absent and all other fields are parsed as
usual. -/
theorem C7_numeric_leniency (L v : Str) (bs₁ bs₂ : List Block)
    (hL : L ∈ numericLabels) (hv : numParseFor L (trim v) = none)
    (h₂ : ∀ b ∈ bs₂, b.1 ≠ L) :
    parseDescBlocks (bs₁ ++ (L, v) :: bs₂)
      = (parseDescBlocks (bs₁ ++ bs₂)).map (descSetNumNone L) := by
  unfold parseDescBlocks
  rw [goDesc_append, goDesc_append]
  cases h1 : goDesc initDescState bs₁ with
  | error e => rfl
  | ok st =>
    dsimp only
    have h2 : goDesc st ((L, v) :: bs₂) = goDesc (stSetNum L none st) bs₂ := by
      simp only [goDesc]
      rw [numParse_stepDesc L hL, hv]
    rw [h2, goDesc_num_frame L hL bs₂ h₂ st]
    cases h3 : goDesc st bs₂ with
    | error e => rfl
    | ok st2 => exact finalize_num_frame L hL st2

theorem C7_numeric_leniency_witness :
    (lSIZE ∈ numericLabels ∧ numParseFor lSIZE (trim fxBlkSizeBad.2) = none) ∧
    parseDescBlocks ([fxBlkName, fxBlkVersion] ++ fxBlkSizeBad :: [])
      = (parseDescBlocks ([fxBlkName, fxBlkVersion] ++ [])).map (descSetNumNone lSIZE) :=
  ⟨⟨by decide, by decide⟩,
   C7_numeric_leniency lSIZE fxBlkSizeBad.2 [fxBlkName, fxBlkVersion] []
     (by decide) (by decide) (fun b hb => absurd hb (List.not_mem_nil b))⟩

theorem classify_unknown (l v : Str) (h : l ∉ recognizedLabels) :
    classifyDesc (l, v) = .unknown l := by
  simp only [recognizedLabels, List.mem_cons, List.mem_nil_iff, or_false, not_or] at h
  obtain ⟨n1, n2, n3, n4, n5, n6, n7, n8, n9, n10, n11, n12, n13, n14, n15, n16, n17, n18,
    n19⟩ := h
  simp only [classifyDesc, if_neg n1, if_neg n2, if_neg n3, if_neg n4, if_neg n5, if_neg n6,
    if_neg n7, if_neg n8, if_neg n9, if_neg n10, if_neg n11, if_neg n12, if_neg n13, if_neg n14,
    if_neg n15, if_neg n16, if_neg n17, if_neg n18, if_neg n19]

/-- C8: a block whose label is none of the nineteen recognized labels makes
parsing fail with the unknown-section error carrying that label and the
package name parsed so far (the placeholder when no NAME block preceded). -/
theorem C8_unknown_label (l v : Str) (bs₁ bs₂ : List Block) (st : DescState)
    (hl : l ∉ recognizedLabels) (h₁ : goDesc initDescState bs₁ = .ok st) :
    parseDescBlocks (bs₁ ++ (l, v) :: bs₂)
      = .error (.unknownSection l (st.name.getD sNONAME)) := by
  unfold parseDescBlocks
  rw [goDesc_append, h₁]
  dsimp only
  simp only [goDesc]
  rw [stepDesc_eq, classify_unknown l v hl]
  rfl

theorem C8_unknown_label_witness :
    (fxLabColour ∉ recognizedLabels) ∧
    parseDescBlocks ([fxBlkName] ++ (fxLabColour, fxValX) :: [])
      = .error (.unknownSection fxLabColour fxNameDemo) :=
  ⟨by decide,
   C8_unknown_label fxLabColour fxValX [fxBlkName] []
     { initDescState with name := some fxNameDemo } (by decide) (by decide)⟩

theorem finalizeDesc_ok (st : DescState) (r : PackageDescription)
    (h : finalizeDesc st = .ok r) :
    st.name = some r.name ∧ st.version = some r.version ∧ r.pkgbase = st.pkgbase ∧
    r.description = st.description ∧ r.url = st.url ∧ r.arch = st.arch ∧
    r.build_date = st.build_date ∧ r.install_date = st.install_date ∧
    r.packager = st.packager ∧ r.size = st.size ∧ r.reason = st.reason ∧
    r.licences = st.licences.getD [] ∧ r.validation = st.validation ∧
    r.replaces = st.replaces.getD [] ∧ r.dependencies = st.dependencies.getD [] ∧
    r.optional_dependencies = st.optional_dependencies.getD [] ∧
    r.provides = st.provides.getD [] ∧ r.groups = st.groups.getD [] ∧
    r.conflicts = st.conflicts.getD [] := by
  obtain ⟨sn, sv, f1, f2, f3, f4, f5, f6, f7, f8, f9, f10, f11, f12, f13, f14, f15, f16,
    f17⟩ := st
  cases sn with
  | none => exact Except.noConfusion h
  | some n =>
    cases sv with
    | none => exact Except.noConfusion h
    | some ver =>
      injection h with h2
      subst h2
      exact ⟨rfl, rfl, rfl, rfl, rfl, rfl, rfl, rfl, rfl, rfl, rfl, rfl, rfl, rfl, rfl,
        rfl, rfl, rfl, rfl⟩

theorem applyDesc_pres_packager (st : DescState) (C : DescCase) (st1 : DescState)
    (hC : C.labelOf ≠ lPACKAGER) (h : applyDesc st C = .ok st1) :
    st1.packager = st.packager := by
  cases C <;> first
    | exact absurd rfl hC
    | exact Except.noConfusion h
    | (simp only [applyDesc, Except.ok.injEq] at h; subst h; rfl)

theorem goDesc_pres_packager : ∀ (bs : List Block), (∀ b ∈ bs, b.1 ≠ lPACKAGER) →
    ∀ st st1, goDesc st bs = .ok st1 → st1.packager = st.packager := by
  intro bs
  induction bs with
  | nil =>
    intro _ st st1 h
    injection h with h2
    subst h2
    rfl
  | cons b bs ih =>
    intro hbs st st1 h
    obtain ⟨l, v⟩ := b
    simp only [goDesc] at h
    cases hsb : stepDesc st (l, v) with
    | error e =>
      rw [hsb] at h
      exact Except.noConfusion h
    | ok stm =>
      rw [hsb] at h
      dsimp only at h
      have he := stepDesc_eq st l v
      rw [hsb] at he
      have hm : stm.packager = st.packager :=
        applyDesc_pres_packager st _ stm
          (by rw [classify_labelOf]; exact hbs (l, v) (List.mem_cons_self _ _)) he.symm
      rw [ih (fun b hb => hbs b (List.mem_cons_of_mem _ hb)) stm st1 h, hm]

theorem stepDesc_packager (st st1 : DescState) (v : Str)
    (h : stepDesc st (lPACKAGER, v) = .ok st1) :
    st1.packager = specPackagerAmended (trim v) := by
  have e : stepDesc st (lPACKAGER, v)
      = (if trim v = sSENTINEL then .ok { st with packager := none }
         else if (trim v).findIdx? (fun c => c = '<') = some 0 then
           .error .panicPackagerSlice
         else .ok { st with packager := some (packagerValue (trim v)) }) := rfl
  rw [e] at h
  by_cases g1 : trim v = sSENTINEL
  · rw [if_pos g1] at h
    injection h with h2
    subst h2
    simp only [specPackagerAmended, if_pos g1]
  · rw [if_neg g1] at h
    by_cases g2 : (trim v).findIdx? (fun c => c = '<') = some 0
    · rw [if_pos g2] at h
      exact Except.noConfusion h
    · rw [if_neg g2] at h
      injection h with h2
      subst h2
      show some (packagerValue (trim v)) = _
      simp only [specPackagerAmended, if_neg g1]
      unfold packagerValue
      cases hf : (trim v).findIdx? (fun c => c = '<') with
      | none => simp [hf, List.take_length]
      | some i => simp [hf]

/-- C4 (amended): the packager field of a successfully parsed descriptor
whose last PACKAGER block carries the value v is the amended packager reading
of the trimmed value: absent on the sentinel, and otherwise the name sliced
to one character before the first less-than sign and the anchored email
match. -/
theorem C4_packager_rule (v : Str) (bs₁ bs₂ : List Block) (r : PackageDescription)
    (h₂ : ∀ b ∈ bs₂, b.1 ≠ lPACKAGER)
    (h : parseDescBlocks (bs₁ ++ (lPACKAGER, v) :: bs₂) = .ok r) :
    r.packager = specPackagerAmended (trim v) := by
  unfold parseDescBlocks at h
  rw [goDesc_append] at h
  cases h1 : goDesc initDescState bs₁ with
  | error e =>
    rw [h1] at h
    exact Except.noConfusion h
  | ok st =>
    rw [h1] at h
    dsimp only at h
    simp only [goDesc] at h
    cases hsb : stepDesc st (lPACKAGER, v) with
    | error e =>
      rw [hsb] at h
      exact Except.noConfusion h
    | ok stm =>
      rw [hsb] at h
      dsimp only at h
      cases h2 : goDesc stm bs₂ with
      | error e =>
        rw [h2] at h
        exact Except.noConfusion h
      | ok st2 =>
        rw [h2] at h
        dsimp only at h
        have hfin := finalizeDesc_ok st2 r h
        rw [hfin.2.2.2.2.2.2.2.2.1]
        rw [goDesc_pres_packager bs₂ h₂ stm st2 h2]
        exact stepDesc_packager st stm v hsb

/-- C4 counterexample: on the value John directly followed by a bracketed
email, the source produces the display name Joh (one character short of the
claimed substring before the bracket) and no email (the anchored pattern does
not match at the start), while the claim predicts the name John and the email
inside the brackets. -/
theorem C4_packager_rule_cex :
    (parseDesc fxDescC4).map (fun r => r.packager)
        = .ok (some { name := fxNameJoh, email := none }) ∧
    specPackagerClaimed fxPackagerJohn
        = some { name := fxNameJohn, email := some fxEmailJ } ∧
    (parseDesc fxDescC4).map (fun r => r.packager)
        ≠ .ok (specPackagerClaimed fxPackagerJohn) := by
  refine ⟨by decide, by decide, ?_⟩
  decide

theorem C4_packager_rule_witness :
    (∀ b ∈ ([] : List Block), b.1 ≠ lPACKAGER) ∧
    (parseDescBlocks ([fxBlkName, fxBlkVersion] ++ (lPACKAGER, fxPackVal) :: [])).map
        (fun r => r.packager) = .ok (specPackagerAmended (trim fxPackVal)) := by
  refine ⟨fun b hb => absurd hb (List.not_mem_nil b), ?_⟩
  have hOk : isOkE (parseDescBlocks ([fxBlkName, fxBlkVersion] ++ (lPACKAGER, fxPackVal) :: []))
      = true := by decide
  cases hp : parseDescBlocks ([fxBlkName, fxBlkVersion] ++ (lPACKAGER, fxPackVal) :: []) with
  | error e =>
    rw [hp] at hOk
    exact absurd hOk (by simp [isOkE])
  | ok r =>
    show Except.ok r.packager = _
    rw [C4_packager_rule fxPackVal [fxBlkName, fxBlkVersion] [] r
      (fun b hb => absurd hb (List.not_mem_nil b)) hp]

/-! ## Field-by-field characterization of the descriptor loop (claim C2) -/

theorem rpLoop_clean (pname : Str) : ∀ (ds : List FsDir) (m : DBMap),
    (∀ d ∈ ds, (!(pname.isPrefixOf d.name) ||
      match newFromDirectory d with
      | .ok e => decide (e.desc.name ≠ pname)
      | .error _ => false) = true) →
    rpLoop pname m ds = (.error .notFound, m) := by
  intro ds
  induction ds with
  | nil => intro m _; rfl
  | cons d ds ih =>
    intro m h
    have hd := h d (List.mem_cons_self _ _)
    simp only [rpLoop]
    by_cases hp : pname.isPrefixOf d.name
    · rw [if_pos hp]
      rw [hp] at hd
      have hd2 : (match newFromDirectory d with
          | .ok e => decide (e.desc.name ≠ pname)
          | .error _ => false) = true := by simpa using hd
      cases hnd : newFromDirectory d with
      | error e =>
        rw [hnd] at hd2
        exact absurd hd2 (by simp)
      | ok entry =>
        rw [hnd] at hd2
        have hne : entry.desc.name ≠ pname := of_decide_eq_true hd2
        dsimp only
        rw [if_neg hne]
        exact ih m (fun x hx => h x (List.mem_cons_of_mem _ hx))
    · rw [if_neg hp]
      exact ih m (fun x hx => h x (List.mem_cons_of_mem _ hx))

/-- C5 (amended): when every directory whose name starts with the requested
name parses successfully and to a different descriptor name, the read of the
package scans the whole store without touching the cache and fails with the
not-found error. -/
theorem C5_exact_match (fs : Filesystem) (m : DBMap) (pname : Str)
    (hc : candidatesParseClean fs pname = true) :
    readPackage fs m pname = (.error .notFound, m) :=
  rpLoop_clean pname fs m (fun d hd => List.all_eq_true.mp hc d hd)

/-- C5 counterexample: against a store whose only directory is a foo-prefixed
foobar without an mtree file, the lookup of foo propagates the io error of
the candidate instead of the not-found error the claim predicts. -/
theorem C5_exact_match_cex :
    (readPackage [fxDirFoobarNoMtree] emptyDB fxNameFoo).1 = .error .io ∧
    DbError.io ≠ DbError.notFound :=
  ⟨by decide, by decide⟩

theorem C5_exact_match_witness :
    candidatesParseClean [fxDirFoobar] fxNameFoo = true ∧
    (readPackage [fxDirFoobar] emptyDB fxNameFoo).1 = .error .notFound :=
  ⟨by decide, by rw [C5_exact_match [fxDirFoobar] emptyDB fxNameFoo (by decide)]⟩

theorem foldl_insert_isSome (ps : List (Str × LocalDatabaseEntry)) : ∀ (m : DBMap) (k : Str),
    ((ps.foldl (fun acc p => insertDB p.1 p.2 acc) m) k).isSome
      = ((m k).isSome || ps.any (fun p => decide (p.1 = k))) := by
  induction ps with
  | nil => intro m k; simp
  | cons p ps ih =>
    intro m k
    rw [List.foldl_cons, ih (insertDB p.1 p.2 m) k, List.any_cons]
    show ((if k = p.1 then some p.2 else m k).isSome || _) = _
    by_cases hk : k = p.1
    · rw [if_pos hk]
      simp [hk]
    · rw [if_neg hk]
      have hd : decide (p.1 = k) = false := by
        simp only [decide_eq_false_iff_not]
        exact fun hx => hk hx.symm
      rw [hd, Bool.false_or]

theorem populatePairs_any (fs : Filesystem) (q k : Str) :
    (populatePairs fs q).any (fun p => decide (p.1 = k)) = fs.any (dirYields q k) := by
  induction fs with
  | nil => rfl
  | cons d ds ih =>
    by_cases hv : (isValidLocalEntryDir d && containsSub q d.name) = true
    · cases hnd : newFromDirectory d with
      | ok e =>
        have e1 : populatePairs (d :: ds) q = (e.desc.name, e) :: populatePairs ds q := by
          unfold populatePairs
          rw [List.filterMap_cons]
          rw [if_pos hv, hnd]
        have hdy : dirYields q k d = decide (e.desc.name = k) := by
          unfold dirYields
          rw [hv, Bool.true_and, hnd]
        rw [e1, List.any_cons, List.any_cons, ih, hdy]
      | error er =>
        have e1 : populatePairs (d :: ds) q = populatePairs ds q := by
          unfold populatePairs
          rw [List.filterMap_cons]
          rw [if_pos hv, hnd]
        have hdy : dirYields q k d = false := by
          unfold dirYields
          rw [hv, Bool.true_and, hnd]
        rw [e1, List.any_cons, ih, hdy, Bool.false_or]
    · have hv2 : (isValidLocalEntryDir d && containsSub q d.name) = false :=
        Bool.eq_false_iff.mpr hv
      have e1 : populatePairs (d :: ds) q = populatePairs ds q := by
        unfold populatePairs
        rw [List.filterMap_cons]
        rw [if_neg hv]
      have hdy : dirYields q k d = false := by
        unfold dirYields
        rw [hv2, Bool.false_and]
      rw [e1, List.any_cons, ih, hdy, Bool.false_or]

theorem containsSub_nil : ∀ s : Str, containsSub [] s = true := by
  intro s
  cases s with
  | nil => rfl
  | cons c cs => rfl

/-- C6: the population with query q makes an entry present under name k
exactly when one was already cached or some valid directory whose name
contains the query parses to a record named k; the empty query matches every
directory name; on the linux and vim stores the query li inserts linux and
not vim; and a directory whose desc does not parse is skipped while the rest
is still inserted. -/
theorem C6_populate :
    (∀ (fs : Filesystem) (m : DBMap) (q k : Str),
      ((populate fs m q) k).isSome = ((m k).isSome || fs.any (dirYields q k))) ∧
    (∀ s : Str, containsSub [] s = true) ∧
    ((populate [fxDirLinux, fxDirVim] emptyDB fxQueryLi) fxNameLinux).isSome = true ∧
    (populate [fxDirLinux, fxDirVim] emptyDB fxQueryLi) fxNameVim = none ∧
    ((populate [fxDirBadDesc, fxDirLinux] emptyDB []) fxNameLinux).isSome = true := by
  refine ⟨?_, containsSub_nil, by decide, by decide, by decide⟩
  intro fs m q k
  unfold populate
  rw [foldl_insert_isSome, populatePairs_any]

theorem coherent_unique {fs : Filesystem} {k : Str} {e₁ e₂ : LocalDatabaseEntry}
    (hc : dirsCoherent fs = true)
    (h1 : entryFromFs fs k e₁) (h2 : entryFromFs fs k e₂) : e₁ = e₂ := by
  obtain ⟨d₁, hd₁, hn₁, hk₁⟩ := h1
  obtain ⟨d₂, hd₂, hn₂, hk₂⟩ := h2
  have hx := List.all_eq_true.mp (List.all_eq_true.mp hc d₁ hd₁) d₂ hd₂
  rw [hn₁, hn₂] at hx
  have hx2 : (e₁.desc.name = e₂.desc.name → e₁ = e₂) := of_decide_eq_true hx
  exact hx2 (hk₁.trans hk₂.symm)

theorem rpLoop_lookup (pname : Str) : ∀ (ds : List FsDir) (m : DBMap) (k : Str),
    ((rpLoop pname m ds).2 k = m k) ∨
    (k = pname ∧ ∃ e, (rpLoop pname m ds).2 k = some e ∧
      ∃ d ∈ ds, newFromDirectory d = .ok e ∧ e.desc.name = pname) := by
  intro ds
  induction ds with
  | nil => intro m k; exact Or.inl rfl
  | cons d ds ih =>
    intro m k
    simp only [rpLoop]
    by_cases hp : pname.isPrefixOf d.name
    · rw [if_pos hp]
      cases hnd : newFromDirectory d with
      | error e => exact Or.inl rfl
      | ok entry =>
        dsimp only
        by_cases hname : entry.desc.name = pname
        · rw [if_pos hname]
          by_cases hk : k = pname
          · refine Or.inr ⟨hk, entry, ?_, d, List.mem_cons_self _ _, hnd, hname⟩
            show insertDB pname entry m k = some entry
            unfold insertDB
            rw [if_pos hk]
          · refine Or.inl ?_
            show insertDB pname entry m k = m k
            unfold insertDB
            rw [if_neg hk]
        · rw [if_neg hname]
          rcases ih m k with h | ⟨hk, e, he, d2, hd2, hnd2, hn2⟩
          · exact Or.inl h
          · exact Or.inr ⟨hk, e, he, d2, List.mem_cons_of_mem _ hd2, hnd2, hn2⟩
    · rw [if_neg hp]
      rcases ih m k with h | ⟨hk, e, he, d2, hd2, hnd2, hn2⟩
      · exact Or.inl h
      · exact Or.inr ⟨hk, e, he, d2, List.mem_cons_of_mem _ hd2, hnd2, hn2⟩

theorem foldl_insert_lookup (ps : List (Str × LocalDatabaseEntry)) :
    ∀ (m : DBMap) (k : Str),
      ((ps.foldl (fun acc p => insertDB p.1 p.2 acc) m) k = m k) ∨
      (∃ e, (ps.foldl (fun acc p => insertDB p.1 p.2 acc) m) k = some e ∧ (k, e) ∈ ps) := by
  induction ps with
  | nil => intro m k; exact Or.inl rfl
  | cons p ps ih =>
    intro m k
    rw [List.foldl_cons]
    rcases ih (insertDB p.1 p.2 m) k with h | ⟨e, he, hm⟩
    · by_cases hk : k = p.1
      · refine Or.inr ⟨p.2, ?_, ?_⟩
        · refine h.trans ?_
          show insertDB p.1 p.2 m k = some p.2
          unfold insertDB
          rw [if_pos hk]
        · have hpe : (k, p.2) = p := by rw [hk]
          rw [hpe]
          exact List.mem_cons_self _ _
      · refine Or.inl (h.trans ?_)
        show insertDB p.1 p.2 m k = m k
        unfold insertDB
        rw [if_neg hk]
    · exact Or.inr ⟨e, he, List.mem_cons_of_mem _ hm⟩

theorem populatePairs_mem {fs : Filesystem} {q k : Str} {e : LocalDatabaseEntry}
    (h : (k, e) ∈ populatePairs fs q) :
    ∃ d ∈ fs, newFromDirectory d = .ok e ∧ e.desc.name = k := by
  unfold populatePairs at h
  obtain ⟨d, hd, hfd⟩ := List.mem_filterMap.mp h
  refine ⟨d, hd, ?_⟩
  by_cases hv : (isValidLocalEntryDir d && containsSub q d.name) = true
  · rw [if_pos hv] at hfd
    cases hnd : newFromDirectory d with
    | error er =>
      rw [hnd] at hfd
      exact Option.noConfusion hfd
    | ok e2 =>
      rw [hnd] at hfd
      have hfd2 : ((e2.desc.name, e2) : Str × LocalDatabaseEntry) = (k, e) :=
        Option.some.inj hfd
      have hn1 : e2.desc.name = k := congrArg Prod.fst hfd2
      have hn2 : e2 = e := congrArg Prod.snd hfd2
      subst hn2
      exact ⟨rfl, hn1⟩
  · rw [if_neg hv] at hfd
    exact Option.noConfusion hfd

theorem runOp_spec (fs : Filesystem) (m : DBMap) (op : DbOp) (k : Str) :
    ((runOp fs m op) k = m k) ∨
    (∃ e, (runOp fs m op) k = some e ∧ entryFromFs fs k e) := by
  cases op with
  | get n =>
    cases hm : m n with
    | some entry =>
      have hdb : runOp fs m (DbOp.get n) = m := by
        show (getOp fs m n).db = m
        unfold getOp
        rw [hm]
      exact Or.inl (by rw [hdb])
    | none =>
      have hdb : runOp fs m (DbOp.get n) = (rpLoop n m fs).2 := by
        show (getOp fs m n).db = _
        unfold getOp
        rw [hm]
        rfl
      rw [hdb]
      rcases rpLoop_lookup n fs m k with h | ⟨hk, e, he, d, hd, hnd, hne⟩
      · exact Or.inl h
      · exact Or.inr ⟨e, he, d, hd, hnd, by rw [hne, hk]⟩
  | readPkg n =>
    show ((readPackage fs m n).2 k = m k) ∨ _
    rcases rpLoop_lookup n fs m k with h | ⟨hk, e, he, d, hd, hnd, hne⟩
    · exact Or.inl h
    · exact Or.inr ⟨e, he, d, hd, hnd, by rw [hne, hk]⟩
  | pop q =>
    show ((populate fs m q) k = m k) ∨ _
    unfold populate
    rcases foldl_insert_lookup (populatePairs fs q) m k with h | ⟨e, he, hm⟩
    · exact Or.inl h
    · obtain ⟨d, hd, hnd, hne⟩ := populatePairs_mem hm
      exact Or.inr ⟨e, he, d, hd, hnd, hne⟩

theorem runOps_stable (fs : Filesystem) (hc : dirsCoherent fs = true) :
    ∀ (ops : List DbOp) (m : DBMap), dbReflectsFs fs m →
      (dbReflectsFs fs (runOps fs m ops) ∧
       ∀ k v, m k = some v → (runOps fs m ops) k = some v) := by
  intro ops
  induction ops with
  | nil => intro m hm; exact ⟨hm, fun k v hv => hv⟩
  | cons op ops ih =>
    intro m hm
    have hstep : dbReflectsFs fs (runOp fs m op) := by
      intro k e he
      rcases runOp_spec fs m op k with h | ⟨e2, he2, hent⟩
      · exact hm k e (h.symm.trans he)
      · have he3 : e2 = e := Option.some.inj (he2.symm.trans he)
        exact he3 ▸ hent
    obtain ⟨h1, h2⟩ := ih (runOp fs m op) hstep
    refine ⟨h1, ?_⟩
    intro k v hv
    have hov : (runOp fs m op) k = some v := by
      rcases runOp_spec fs m op k with h | ⟨e2, he2, hent⟩
      · rw [h, hv]
      · have hv2 := hm k v hv
        have he3 : e2 = v := coherent_unique hc hent hv2
        rw [he2, he3]
    exact h2 k v hov

theorem runOps_append (fs : Filesystem) : ∀ (ops₁ ops₂ : List DbOp) (m : DBMap),
    runOps fs m (ops₁ ++ ops₂) = runOps fs (runOps fs m ops₁) ops₂ := by
  intro ops₁
  induction ops₁ with
  | nil => intro ops₂ m; rfl
  | cons op ops ih => intro ops₂ m; exact ih ops₂ (runOp fs m op)

/-- C1 (amended): a get for a cached name returns the cached entry, leaves
the cache unchanged and does not touch the filesystem; and over a coherent
backing store (any two directories parsing to the same descriptor name parse
to equal entries), once a name maps to an entry in a cache grown from empty,
every later sequence of get, read-package and populate operations leaves that
exact entry in place.  Without coherence the second part fails, because
populate replaces cached entries wholesale. -/
theorem C1_cache_discipline :
    (∀ (fs : Filesystem) (m : DBMap) (k : Str) (v : LocalDatabaseEntry),
        m k = some v → getOp fs m k = { res := .ok v, db := m, touchedFs := false }) ∧
    (∀ (fs : Filesystem), dirsCoherent fs = true →
      ∀ (ops₁ ops₂ : List DbOp) (k : Str) (v : LocalDatabaseEntry),
        (runOps fs emptyDB ops₁) k = some v →
        (runOps fs emptyDB (ops₁ ++ ops₂)) k = some v) := by
  constructor
  · intro fs m k v hv
    unfold getOp
    rw [hv]
  · intro fs hc ops₁ ops₂ k v h1
    rw [runOps_append fs ops₁ ops₂ emptyDB]
    have hrefl : dbReflectsFs fs (runOps fs emptyDB ops₁) :=
      (runOps_stable fs hc ops₁ emptyDB (fun k e he => Option.noConfusion he)).1
    exact (runOps_stable fs hc ops₂ (runOps fs emptyDB ops₁) hrefl).2 k v h1

/-- C1 counterexample: over a store holding foo-1.0-1 and foo-2.0-1, both
with descriptor name foo, a get of foo caches one entry and the following
full population replaces it with the other, so the entry stored under foo
changes after insertion. -/
theorem C1_cache_discipline_cex :
    ((runOps [fxDirFoo1, fxDirFoo2] emptyDB [DbOp.get fxNameFoo]) fxNameFoo).isSome = true ∧
    (runOps [fxDirFoo1, fxDirFoo2] emptyDB [DbOp.get fxNameFoo, DbOp.pop []]) fxNameFoo
      ≠ (runOps [fxDirFoo1, fxDirFoo2] emptyDB [DbOp.get fxNameFoo]) fxNameFoo :=
  ⟨by decide, by decide⟩

theorem C1_cache_discipline_witness :
    (insertDB fxNameLinux fxLinuxEntry emptyDB) fxNameLinux = some fxLinuxEntry ∧
    getOp [] (insertDB fxNameLinux fxLinuxEntry emptyDB) fxNameLinux
      = { res := .ok fxLinuxEntry, db := insertDB fxNameLinux fxLinuxEntry emptyDB,
          touchedFs := false } ∧
    dirsCoherent [fxDirLinux] = true ∧
    (runOps [fxDirLinux] emptyDB [DbOp.get fxNameLinux]) fxNameLinux = some fxLinuxEntry ∧
    (runOps [fxDirLinux] emptyDB ([DbOp.get fxNameLinux] ++ [DbOp.pop []])) fxNameLinux
      = some fxLinuxEntry :=
  ⟨by decide,
   C1_cache_discipline.1 [] (insertDB fxNameLinux fxLinuxEntry emptyDB) fxNameLinux
     fxLinuxEntry (by decide),
   by decide, by decide,
   C1_cache_discipline.2 [fxDirLinux] (by decide) [DbOp.get fxNameLinux] [DbOp.pop []]
     fxNameLinux fxLinuxEntry (by decide)⟩

end PacmanRs

